import Mathlib

/-!
# k8router — verification of the cross-cluster aggregation and configuration pipeline

Shallow embedding of the core data model and algorithms of the k8router
repository (Go), together with theorems settling the specification claims.

Embedded components and their sources:
* the state value types and equivalence predicates
  (`pkg/state/clusterState.go`, `pkg/state/utilities.go`);
* the renderer derivation `rebuildConfig` and the renderer event loop
  (`pkg/state/clusterState.go`, haproxy handler section; `pkg/haproxy/handler.go`);
* the per-cluster aggregator `aggregateClusterView` and the ingress event
  handler `handleIngressEvent` (`pkg/router/cluster.go`).

Go maps iterate in an unspecified (randomised) order.  Wherever the source
ranges over a map, the embedding takes the iteration order as an explicit
parameter, and theorems quantify over all orders that are consistent with the
map contents.  Go maps themselves are modelled as association lists together
with `assocLookup` / `assocSet`; machine strings are Lean `String`s and pod
IP addresses are modelled as numeric addresses (`Nat`), which is all the
embedded code paths inspect.
-/

/-- `state.K8RouterIngress`: fully-qualified name plus ordered host list. -/
structure K8RouterIngress where
  Name : String
  Hosts : List String
deriving DecidableEq, Repr

/-- `state.K8RouterBackend`: pod name plus one (numeric) IP address. -/
structure K8RouterBackend where
  Name : String
  IP : Nat
deriving DecidableEq, Repr

/-- `state.ClusterState`: a per-cluster snapshot. -/
structure ClusterState where
  Name : String
  Ingresses : List K8RouterIngress
  Backends : List K8RouterBackend
deriving DecidableEq, Repr

/-- `state.IngressChange`: an ingress change event. -/
structure IngressChange where
  Ingress : K8RouterIngress
  Created : Bool
deriving DecidableEq, Repr

/-- `state.BackendChange`: a backend change event. -/
structure BackendChange where
  Backend : K8RouterBackend
  Created : Bool
deriving DecidableEq, Repr

/-- `state.IsBackendEquivalent` (non-nil pointers): names match and the
addresses compare equal. -/
def IsBackendEquivalent (a b : K8RouterBackend) : Bool :=
  if a.Name ≠ b.Name then false else a.IP = b.IP

/-- `state.IsIngressEquivalent` (non-nil pointers): names match, host lists
have equal length and are element-wise equal. -/
def IsIngressEquivalent (a b : K8RouterIngress) : Bool :=
  if a.Name ≠ b.Name then false
  else if a.Hosts.length ≠ b.Hosts.length then false
  else (a.Hosts.zip b.Hosts).all fun p => p.1 = p.2

/-! ## Association lists: the model of Go maps -/

/-- Lookup in a Go map modelled as an association list (`m[k]`, second
return value `ok := (result).isSome`). -/
def assocLookup {α : Type} (m : List (String × α)) (k : String) : Option α :=
  (m.find? fun p => p.1 = k).map (·.2)

/-- Assignment `m[k] = v` in a Go map modelled as an association list:
replaces the binding if the key is present, otherwise appends it. -/
def assocSet {α : Type} (m : List (String × α)) (k : String) (v : α) :
    List (String × α) :=
  if (m.find? fun p => p.1 = k).isSome then
    m.map fun p => if p.1 = k then (k, v) else p
  else m ++ [(k, v)]

/-- `delete(m, k)` on a Go map modelled as an association list. -/
def assocRemove {α : Type} (m : List (String × α)) (k : String) :
    List (String × α) :=
  m.filter fun p => p.1 ≠ k

/-! ## String helpers used by `rebuildConfig` -/

/-- `strings.Join(l, "-")`. -/
def joinDash : List String → String
  | [] => ""
  | [s] => s
  | s :: rest => s ++ "-" ++ joinDash rest

/-- Lexicographic comparison on character lists (the order used by
`sort.Strings`), written so that it evaluates by kernel reduction. -/
def charListLe : List Char → List Char → Bool
  | [], _ => true
  | _ :: _, [] => false
  | a :: as, b :: bs => if a = b then charListLe as bs else decide (a < b)

/-- Lexicographic string comparison (Go `s1 <= s2`). -/
def strLe (a b : String) : Bool :=
  charListLe a.data b.data

/-- `sort.Strings`: lexicographic sort. -/
def sortStrings (l : List String) : List String :=
  l.insertionSort fun a b => strLe a b = true

/-- Character-level counterpart of `joinDash`, used to reason about it. -/
def charJoin : List (List Char) → List Char
  | [] => []
  | [s] => s
  | s :: rest => s ++ '-' :: charJoin rest

/-- `strings.Contains(p, "*")`. -/
def hasStar (p : String) : Bool :=
  p.data.contains '*'

/-- `strings.Trim(p, "*")`: remove leading and trailing `*` characters. -/
def trimStars (p : String) : String :=
  ⟨((p.data.dropWhile (· = '*')).reverse.dropWhile (· = '*')).reverse⟩

/-- `strings.HasSuffix(s, suffix)`. -/
def goHasSuffix (s suffix : String) : Bool :=
  decide (suffix.data <:+ s.data)

/-! ## Renderer derivation (`rebuildConfig`)

Source: `rebuildConfig` in the haproxy handler (`pkg/state/clusterState.go`
handler section, the configuration-rendering entry point; the older
`pkg/haproxy/handler.go` version differs only in the certificate step).

The handler's `clusterState` map is passed as a list `css` of snapshots in
iteration order; step 2's iteration over `hostToClusters` is the parameter
`hostOrder`; each wildcard scan over `hostToBackend` in step 3 draws the
next order from the stream `scans`. -/

/-- Number of times `host` is listed by the ingresses of one cluster. -/
def hostOccCount (cs : ClusterState) (host : String) : Nat :=
  ((cs.Ingresses.map (·.Hosts)).flatten).count host

/-- Step 1 of `rebuildConfig`: the value `hostToClusters[host]`, built by
appending `cluster.Name` once per ingress host entry equal to `host`,
iterating clusters in the order `css`. -/
def clustersForHost (css : List ClusterState) (host : String) : List String :=
  (css.map fun cs => List.replicate (hostOccCount cs host) cs.Name).flatten

/-- All hosts listed by any ingress of any cluster, with repetitions, in
iteration order: the domain of `hostToClusters` is `(allHosts css).dedup`
up to order. -/
def allHosts (css : List ClusterState) : List String :=
  (css.map fun cs => (cs.Ingresses.map (·.Hosts)).flatten).flatten

/-- Does `host` appear in some stored cluster snapshot's ingress set? -/
def hostOccurs (css : List ClusterState) (host : String) : Bool :=
  css.any fun cs => hostOccCount cs host ≠ 0

/-- The backend-combination key of a host: dash-joined, lexicographically
sorted cluster-name list (`strings.Join(clusters, "-")` after
`sort.Strings`). -/
def combinationKey (css : List ClusterState) (host : String) : String :=
  joinDash (sortStrings (clustersForHost css host))

/-- `h.clusterState[cluster]`: map lookup by cluster name, zero value if
absent. -/
def lookupCluster (css : List ClusterState) (name : String) : ClusterState :=
  (css.find? fun cs => cs.Name = name).getD ⟨"", [], []⟩

/-- The concatenated endpoint list of a list of cluster names, in list
order, preserving per-cluster insertion order. -/
def endpointsForClusters (css : List ClusterState) (clusters : List String) :
    List K8RouterBackend :=
  (clusters.map fun name => (lookupCluster css name).Backends).flatten

/-- Result of step 2 of `rebuildConfig`. -/
structure RoutingTables where
  hostToBackend : List (String × String)
  backendCombinationList : List (String × List K8RouterBackend)
deriving DecidableEq, Repr

/-- One iteration of the step-2 loop body (`for host, clusters := range
hostToClusters`). -/
def step2Visit (css : List ClusterState) (acc : RoutingTables) (host : String) :
    RoutingTables :=
  let clusters := sortStrings (clustersForHost css host)
  let key := joinDash clusters
  let bcl :=
    if (assocLookup acc.backendCombinationList key).isSome then
      acc.backendCombinationList
    else
      acc.backendCombinationList ++ [(key, endpointsForClusters css clusters)]
  { hostToBackend := acc.hostToBackend ++ [(host, key)],
    backendCombinationList := bcl }

/-- Step 2 of `rebuildConfig`: build `hostToBackend` and
`backendCombinationList`, visiting hosts in the order `hostOrder`. -/
def step2 (css : List ClusterState) (hostOrder : List String) : RoutingTables :=
  hostOrder.foldl (step2Visit css) ⟨[], []⟩

/-- `config.CertificateInternal`: symbolic name, bundle path, domain
patterns. -/
structure CertificateInternal where
  Name : String
  Cert : String
  Domains : List String
deriving DecidableEq, Repr

/-- `haproxy.SniDetail`. -/
structure SniDetail where
  Domains : List String
  IsWildcard : Bool
  LocalForwardPort : Nat
  Path : String
deriving DecidableEq, Repr

/-- Accumulator of the certificate loop (step 3 of `rebuildConfig`). -/
structure CertAcc where
  sniList : List (String × SniDetail)
  port : Nat
  hostToCert : List (String × String)
  defaultWildcardCert : String
  scanIdx : Nat
deriving DecidableEq, Repr

/-- Accumulator of the per-certificate pattern loop (`for _, host := range
cert.Domains`). -/
structure PatternAcc where
  used : List String
  isWildcard : Bool
  hostToCert : List (String × String)
  scanIdx : Nat
deriving DecidableEq, Repr

/-- Body of the wildcard scan `for actualHost := range hostToBackend`:
append each suffix-matching host to `actuallyUsedHosts` and record
`hostToCert[actualHost] = cert.Name`. -/
def wildcardVisit (certName suffix : String)
    (a : List String × List (String × String)) (h : String) :
    List String × List (String × String) :=
  if goHasSuffix h suffix then (a.1 ++ [h], assocSet a.2 h certName) else a

/-- One pattern of one certificate in step 3 of `rebuildConfig`. -/
def processPattern (table : List (String × String))
    (scans : Nat → List String) (certName : String)
    (acc : PatternAcc) (pattern : String) : PatternAcc :=
  if hasStar pattern then
    let suffix := trimStars pattern
    let r := (scans acc.scanIdx).foldl (wildcardVisit certName suffix)
      (acc.used, acc.hostToCert)
    { used := r.1, isWildcard := true, hostToCert := r.2,
      scanIdx := acc.scanIdx + 1 }
  else if (assocLookup table pattern).isSome then
    { acc with used := acc.used ++ [pattern],
               hostToCert := assocSet acc.hostToCert pattern certName }
  else acc

/-- One certificate in step 3 of `rebuildConfig`: filter the domain list
against the routing table, then either skip the certificate (empty filter
and not wildcard) or record its SNI entry, consume a port, and update the
default wildcard certificate. -/
def processCert (table : List (String × String)) (scans : Nat → List String)
    (acc : CertAcc) (cert : CertificateInternal) : CertAcc :=
  let p := cert.Domains.foldl (processPattern table scans cert.Name)
    ⟨[], false, acc.hostToCert, acc.scanIdx⟩
  if p.used.isEmpty && !p.isWildcard then
    { acc with hostToCert := p.hostToCert, scanIdx := p.scanIdx }
  else
    { sniList := assocSet acc.sniList cert.Name
        ⟨p.used, p.isWildcard, acc.port, cert.Cert⟩,
      port := acc.port + 1,
      hostToCert := p.hostToCert,
      defaultWildcardCert :=
        if p.isWildcard then cert.Name else acc.defaultWildcardCert,
      scanIdx := p.scanIdx }

/-- Step 3 of `rebuildConfig`: iterate the configured certificates in
configuration order, starting the local forward port counter at 12345. -/
def step3 (table : List (String × String)) (certs : List CertificateInternal)
    (scans : Nat → List String) : CertAcc :=
  certs.foldl (processCert table scans) ⟨[], 12345, [], "", 0⟩

/-- `haproxy.TemplateInfo` (the advertised front-end IPs are carried
through unchanged and are omitted). -/
structure TemplateInfo where
  SniList : List (String × SniDetail)
  BackendCombinationList : List (String × List K8RouterBackend)
  HostToBackend : List (String × String)
  DefaultWildcardCert : String
deriving DecidableEq, Repr

/-- `rebuildConfig`: the full derivation.  Returns the `TemplateInfo`
record assigned to `h.templateInfo` together with the local `hostToCert`
table (used by the missing-certificate warning loop). -/
def rebuildConfig (css : List ClusterState) (hostOrder : List String)
    (certs : List CertificateInternal) (scans : Nat → List String) :
    TemplateInfo × List (String × String) :=
  let rt := step2 css hostOrder
  let c3 := step3 rt.hostToBackend certs scans
  ({ SniList := c3.sniList,
     BackendCombinationList := rt.backendCombinationList,
     HostToBackend := rt.hostToBackend,
     DefaultWildcardCert := c3.defaultWildcardCert }, c3.hostToCert)

/-! ### Specification-side notions used to state the claims -/

/-- Does this cluster's ingress set list the host? (specification reading:
"the clusters whose ingresses list that host"). -/
def clusterServesHost (cs : ClusterState) (host : String) : Bool :=
  cs.Ingresses.any fun i => i.Hosts.contains host

/-- The names of exactly the clusters whose ingresses list `host`, one
occurrence each, in stored order. -/
def servingClusters (css : List ClusterState) (host : String) : List String :=
  (css.filter fun cs => clusterServesHost cs host).map (·.Name)

/-- Does one domain pattern match the host (exact equality, or suffix
match after trimming `*`)? -/
def patternMatches (p host : String) : Bool :=
  if hasStar p then goHasSuffix host (trimStars p) else p = host

/-- Does some domain pattern of the certificate match the host (exact
equality, or suffix match after trimming `*`)? -/
def certMatchesHost (cert : CertificateInternal) (host : String) : Bool :=
  cert.Domains.any fun p => patternMatches p host

/-- Equality of SNI entries up to the order of the filtered host list. -/
def SniDetailRel (d₁ d₂ : SniDetail) : Prop :=
  d₁.Domains.Perm d₂.Domains ∧ d₁.IsWildcard = d₂.IsWildcard ∧
    d₁.LocalForwardPort = d₂.LocalForwardPort ∧ d₁.Path = d₂.Path

/-- Lifts `SniDetailRel` to optional lookup results. -/
def sniRel (o₁ o₂ : Option SniDetail) : Prop :=
  match o₁, o₂ with
  | none, none => True
  | some d₁, some d₂ => SniDetailRel d₁ d₂
  | _, _ => False

/-- A cluster name usable as a key component: nonempty and dash-free.
Needed for backend-combination keys to determine their cluster lists. -/
def goodName (s : String) : Prop :=
  s ≠ "" ∧ '-' ∉ s.data

instance (s : String) : Decidable (goodName s) := by
  unfold goodName; infer_instance

/-! ## Renderer event loop (`eventLoop` of the haproxy handler)

On an inbound snapshot, store it under its cluster name and increment the
change counter; on a tick, write the configuration and reload (or emit a
debug event) exactly when the counter is positive, and reset the counter. -/

/-- The handler state touched by `eventLoop`: the per-cluster snapshot map
and the dirty counter `numChanges`. -/
structure HandlerState where
  clusterState : List (String × ClusterState)
  numChanges : Nat
deriving DecidableEq, Repr

/-- `case event := <-h.updates`: `h.clusterState[event.Name] = event;
h.numChanges++`. -/
def handleUpdate (h : HandlerState) (event : ClusterState) : HandlerState :=
  { clusterState := assocSet h.clusterState event.Name event,
    numChanges := h.numChanges + 1 }

/-- `case <-updateTicks.C`: if `numChanges > 0`, reset it and rebuild,
template, write and reload.  The returned flag is true iff this tick wrote
the configuration file and triggered a reload. -/
def handleTick (h : HandlerState) : HandlerState × Bool :=
  if h.numChanges > 0 then ({ h with numChanges := 0 }, true) else (h, false)

/-! ## Cluster watcher: ingress event handling (`handleIngressEvent`)

`pkg/router/cluster.go`.  The embedding covers the path where the event
payload is an ingress (the type assertion succeeded, so the Go variable
`ok` is `true`); the argument `ing` is the normalised object
`{Name = namespace-localName, Hosts = [rule.Host...]}`.  The Go `switch`
has an empty `case watch.Modified:` body, which does not fall through to
the `watch.Added` case. -/

/-- Watch event tags delivered by a subscription. -/
inductive WatchAction
  | Added
  | Modified
  | Deleted
deriving DecidableEq, Repr

/-- `handleIngressEvent`: returns the updated `knownIngresses` map and the
list of `IngressChange` events sent on the ingress-events channel, in
order. -/
def handleIngressEvent (known : List (String × K8RouterIngress))
    (ing : K8RouterIngress) (action : WatchAction) :
    List (String × K8RouterIngress) × List IngressChange :=
  match action with
  | .Deleted =>
      (assocRemove known ing.Name, [⟨⟨ing.Name, []⟩, false⟩])
  | .Modified =>
      -- empty case body in the Go switch: the event is dropped
      (known, [])
  | .Added =>
      let obj := ing
      let val := (assocLookup known obj.Name).getD ⟨"", []⟩
      let isEquivalent := IsIngressEquivalent obj val
      -- the branch `if action == watch.Modified && !isEquivalent` inside
      -- this case body is unreachable here because action is Added
      let emits := if isEquivalent then [] else [⟨obj, true⟩]
      (assocSet known obj.Name obj, emits)

/-! ## Per-cluster aggregator (`aggregateClusterView`)

`pkg/router/cluster.go`.  Each select arm mutates the owned snapshot and
then sends its current value on the shared cluster-state channel. -/

/-- Events consumed by the aggregator select loop (the stop arm returns
without touching state and is not modelled). -/
inductive AggregatorEvent
  | ingress (e : IngressChange)
  | backend (e : BackendChange)
  | clear
deriving DecidableEq, Repr

/-- The ingress arm: create appends; delete finds the first entry with the
matching name, overwrites it with the last entry and truncates. -/
def aggApplyIngress (cs : ClusterState) (e : IngressChange) : ClusterState :=
  if e.Created then
    { cs with Ingresses := cs.Ingresses ++ [e.Ingress] }
  else
    match cs.Ingresses.findIdx? (fun x => x.Name = e.Ingress.Name) with
    | none => cs
    | some i =>
        { cs with Ingresses :=
            ((cs.Ingresses.set i (cs.Ingresses.getLast?.getD ⟨"", []⟩))).dropLast }

/-- The backend arm, same shape as the ingress arm. -/
def aggApplyBackend (cs : ClusterState) (e : BackendChange) : ClusterState :=
  if e.Created then
    { cs with Backends := cs.Backends ++ [e.Backend] }
  else
    match cs.Backends.findIdx? (fun x => x.Name = e.Backend.Name) with
    | none => cs
    | some i =>
        { cs with Backends :=
            ((cs.Backends.set i (cs.Backends.getLast?.getD ⟨"", 0⟩))).dropLast }

/-- One iteration of `aggregateClusterView`: apply the event to the owned
snapshot and return it together with the values sent on the shared
cluster-state channel. -/
def aggStep (cs : ClusterState) (ev : AggregatorEvent) :
    ClusterState × List ClusterState :=
  match ev with
  | .ingress e => let r := aggApplyIngress cs e; (r, [r])
  | .backend e => let r := aggApplyBackend cs e; (r, [r])
  | .clear => let r := { cs with Ingresses := [], Backends := [] }; (r, [r])

/-! ## Order lemmas for the string sort -/

theorem charListLe_total : ∀ x y : List Char, charListLe x y = true ∨ charListLe y x = true
  | [], _ => .inl rfl
  | _ :: _, [] => .inr rfl
  | a :: as, b :: bs => by
    by_cases hab : a = b
    · subst hab
      rcases charListLe_total as bs with h | h
      · exact .inl (by simpa [charListLe] using h)
      · exact .inr (by simpa [charListLe] using h)
    · rcases lt_trichotomy a b with h | h | h
      · exact .inl (by simp [charListLe, hab, h])
      · exact absurd h hab
      · exact .inr (by simp [charListLe, Ne.symm hab, h])

theorem charListLe_trans :
    ∀ x y z : List Char, charListLe x y = true → charListLe y z = true →
      charListLe x z = true
  | [], _, _, _, _ => rfl
  | _ :: _, [], _, h, _ => by cases h
  | _ :: _, _ :: _, [], _, h => by cases h
  | a :: as, b :: bs, c :: cs, h₁, h₂ => by
    by_cases hab : a = b <;> by_cases hbc : b = c
    · subst hab; subst hbc
      simp only [charListLe, if_pos rfl] at h₁ h₂ ⊢
      exact charListLe_trans as bs cs h₁ h₂
    · subst hab
      simp only [charListLe, if_neg hbc] at h₂
      simp [charListLe, hbc, of_decide_eq_true h₂]
    · subst hbc
      simp only [charListLe, if_neg hab] at h₁
      simp [charListLe, hab, of_decide_eq_true h₁]
    · simp only [charListLe, if_neg hab] at h₁
      simp only [charListLe, if_neg hbc] at h₂
      have hac : a < c := lt_trans (of_decide_eq_true h₁) (of_decide_eq_true h₂)
      simp [charListLe, ne_of_lt hac, hac]

theorem charListLe_antisymm :
    ∀ x y : List Char, charListLe x y = true → charListLe y x = true → x = y
  | [], [], _, _ => rfl
  | [], _ :: _, _, h => by cases h
  | _ :: _, [], h, _ => by cases h
  | a :: as, b :: bs, h₁, h₂ => by
    by_cases hab : a = b
    · subst hab
      simp only [charListLe, if_pos rfl] at h₁ h₂
      exact congrArg (a :: ·) (charListLe_antisymm as bs h₁ h₂)
    · simp only [charListLe, if_neg hab, if_neg (Ne.symm hab)] at h₁ h₂
      exact absurd (of_decide_eq_true h₂) (lt_asymm (of_decide_eq_true h₁))

theorem string_data_inj {a b : String} (h : a.data = b.data) : a = b := by
  cases a; cases b; exact congrArg String.mk h

instance : IsTotal String fun a b => strLe a b = true :=
  ⟨fun a b => charListLe_total a.data b.data⟩

instance : IsTrans String fun a b => strLe a b = true :=
  ⟨fun a b c => charListLe_trans a.data b.data c.data⟩

instance : IsAntisymm String fun a b => strLe a b = true :=
  ⟨fun a b h₁ h₂ => string_data_inj (charListLe_antisymm a.data b.data h₁ h₂)⟩

theorem sortStrings_perm (l : List String) : (sortStrings l).Perm l :=
  List.perm_insertionSort _ l

theorem sortStrings_eq_of_perm {l₁ l₂ : List String} (h : l₁.Perm l₂) :
    sortStrings l₁ = sortStrings l₂ :=
  List.eq_of_perm_of_sorted
    (((sortStrings_perm l₁).trans h).trans (sortStrings_perm l₂).symm)
    (List.sorted_insertionSort _ l₁) (List.sorted_insertionSort _ l₂)

/-! ## Association list lemmas -/

theorem assocLookup_nil {α : Type} (k : String) :
    assocLookup ([] : List (String × α)) k = none := rfl

theorem assocLookup_cons {α : Type} (k' : String) (v : α) (m : List (String × α))
    (k : String) :
    assocLookup ((k', v) :: m) k = if k' = k then some v else assocLookup m k := by
  by_cases h : k' = k <;> simp [assocLookup, List.find?, h]

theorem assocLookup_append {α : Type} (m₁ m₂ : List (String × α)) (k : String) :
    assocLookup (m₁ ++ m₂) k =
      match assocLookup m₁ k with
      | some v => some v
      | none => assocLookup m₂ k := by
  induction m₁ with
  | nil => simp [assocLookup_nil]
  | cons p t ih =>
      obtain ⟨k', v⟩ := p
      by_cases h : k' = k <;>
        simp [List.cons_append, assocLookup_cons, h, ih]

theorem assocLookup_isSome_iff {α : Type} (m : List (String × α)) (k : String) :
    (assocLookup m k).isSome ↔ k ∈ m.map Prod.fst := by
  induction m with
  | nil => simp [assocLookup_nil]
  | cons p t ih =>
      obtain ⟨k', v⟩ := p
      by_cases h : k' = k <;> simp [assocLookup_cons, h, ih]
      exact fun hk => absurd hk.symm h

theorem find?_isSome_iff_mem {α : Type} (m : List (String × α)) (k : String) :
    (m.find? fun p => p.1 = k).isSome ↔ k ∈ m.map Prod.fst := by
  rw [← assocLookup_isSome_iff]
  unfold assocLookup
  cases m.find? fun p => p.1 = k <;> simp

theorem assocLookup_mapReplace_self {α : Type} (m : List (String × α))
    (k : String) (v : α) :
    assocLookup (m.map fun p => if p.1 = k then (k, v) else p) k =
      if (assocLookup m k).isSome then some v else none := by
  induction m with
  | nil => rfl
  | cons p t ih =>
      obtain ⟨k₀, w⟩ := p
      by_cases h : k₀ = k
      · subst h; simp [assocLookup_cons]
      · simp [assocLookup_cons, h, ih]

theorem assocLookup_mapReplace_other {α : Type} (m : List (String × α))
    (k k' : String) (v : α) (h : k' ≠ k) :
    assocLookup (m.map fun p => if p.1 = k then (k, v) else p) k' =
      assocLookup m k' := by
  induction m with
  | nil => rfl
  | cons p t ih =>
      obtain ⟨k₀, w⟩ := p
      by_cases h₀ : k₀ = k
      · subst h₀; simp [assocLookup_cons, Ne.symm h, ih]
      · by_cases h₁ : k₀ = k' <;> simp [assocLookup_cons, h₀, h₁, h, ih]

theorem assocLookup_assocSet_self {α : Type} (m : List (String × α))
    (k : String) (v : α) :
    assocLookup (assocSet m k v) k = some v := by
  unfold assocSet
  by_cases h : (m.find? fun p => p.1 = k).isSome
  · rw [if_pos h, assocLookup_mapReplace_self]
    have hs : (assocLookup m k).isSome := by
      unfold assocLookup; cases hf : m.find? fun p => p.1 = k
      · rw [hf] at h; simp at h
      · simp
    simp [hs]
  · rw [if_neg h, assocLookup_append]
    have hnone : assocLookup m k = none := by
      unfold assocLookup; cases hf : m.find? fun p => p.1 = k
      · rfl
      · rw [hf] at h; simp at h
    simp [hnone, assocLookup_cons]

theorem assocLookup_assocSet_other {α : Type} (m : List (String × α))
    (k k' : String) (v : α) (h : k' ≠ k) :
    assocLookup (assocSet m k v) k' = assocLookup m k' := by
  unfold assocSet
  by_cases hf : (m.find? fun p => p.1 = k).isSome
  · rw [if_pos hf, assocLookup_mapReplace_other m k k' v h]
  · rw [if_neg hf, assocLookup_append]
    cases hl : assocLookup m k' with
    | some w => rfl
    | none => simp [assocLookup_cons, Ne.symm h, assocLookup_nil]

theorem assocSet_of_not_mem {α : Type} (m : List (String × α)) (k : String)
    (v : α) (h : k ∉ m.map Prod.fst) : assocSet m k v = m ++ [(k, v)] := by
  unfold assocSet
  rw [if_neg]
  intro hs
  exact h ((find?_isSome_iff_mem m k).mp hs)

theorem mem_assocSet {α : Type} {m : List (String × α)} {k : String} {v : α}
    {e : String × α} (he : e ∈ assocSet m k v) : e = (k, v) ∨ e ∈ m := by
  unfold assocSet at he
  by_cases hf : (m.find? fun p => p.1 = k).isSome
  · rw [if_pos hf] at he
    obtain ⟨p, hp, hpe⟩ := List.mem_map.mp he
    by_cases h : p.1 = k
    · left; rw [if_pos h] at hpe; exact hpe.symm
    · right; rw [if_neg h] at hpe; exact hpe ▸ hp
  · rw [if_neg hf] at he
    rcases List.mem_append.mp he with h | h
    · right; exact h
    · left; simpa using h

theorem assocSet_keys {α : Type} (m : List (String × α)) (k : String) (v : α) :
    (assocSet m k v).map Prod.fst =
      if k ∈ m.map Prod.fst then m.map Prod.fst else m.map Prod.fst ++ [k] := by
  unfold assocSet
  by_cases hf : (m.find? fun p => p.1 = k).isSome
  · rw [if_pos hf, if_pos ((find?_isSome_iff_mem m k).mp hf), List.map_map]
    apply List.map_congr_left
    intro p _
    by_cases h : p.1 = k <;> simp [h]
  · rw [if_neg hf, if_neg fun hmem => hf ((find?_isSome_iff_mem m k).mpr hmem)]
    simp

theorem assocSet_keys_nodup {α : Type} {m : List (String × α)} {k : String}
    {v : α} (h : (m.map Prod.fst).Nodup) :
    ((assocSet m k v).map Prod.fst).Nodup := by
  rw [assocSet_keys]
  by_cases hmem : k ∈ m.map Prod.fst
  · rwa [if_pos hmem]
  · rw [if_neg hmem]
    refine List.Nodup.append h (List.nodup_singleton k) ?_
    intro a ha hb
    rw [List.mem_singleton] at hb
    exact hmem (hb ▸ ha)

theorem assocSet_decomp {α : Type} (m : List (String × α)) (k : String) (v : α)
    (hn : (m.map Prod.fst).Nodup) (hmem : k ∈ m.map Prod.fst) :
    ∃ m₁ w m₂, m = m₁ ++ (k, w) :: m₂ ∧ assocSet m k v = m₁ ++ (k, v) :: m₂ := by
  induction m with
  | nil => simp at hmem
  | cons p t ih =>
      obtain ⟨k₀, w₀⟩ := p
      by_cases h : k₀ = k
      · subst h
        refine ⟨[], w₀, t, rfl, ?_⟩
        rw [List.map_cons] at hn
        have hk : k₀ ∉ t.map Prod.fst := (List.nodup_cons.mp hn).1
        unfold assocSet
        rw [if_pos (by simp [List.find?])]
        have hmap : (t.map fun p => if p.1 = k₀ then (k₀, v) else p) = t := by
          conv_rhs => rw [← List.map_id t]
          apply List.map_congr_left
          intro q hq
          have hq1 : q.1 ≠ k₀ := fun hq1 => hk (hq1 ▸ List.mem_map_of_mem Prod.fst hq)
          simp [hq1]
        simp [List.find?, hmap]
      · have hmem' : k ∈ t.map Prod.fst := by
          rcases List.mem_map.mp hmem with ⟨q, hq, hq1⟩
          rcases List.mem_cons.mp hq with rfl | hq'
          · exact absurd hq1 h
          · exact hq1 ▸ List.mem_map_of_mem Prod.fst hq'
        rw [List.map_cons] at hn
        obtain ⟨m₁, w, m₂, hm, hset⟩ := ih (List.nodup_cons.mp hn).2 hmem'
        refine ⟨(k₀, w₀) :: m₁, w, m₂, by rw [hm, List.cons_append], ?_⟩
        have hft : (t.find? fun p => p.1 = k).isSome :=
          (find?_isSome_iff_mem t k).mpr hmem'
        unfold assocSet at hset ⊢
        rw [if_pos hft] at hset
        rw [if_pos (by simpa [List.find?, h] using hft)]
        simpa [List.find?, h, List.map_cons] using congrArg ((k₀, w₀) :: ·) hset

/-! ## Injectivity of the dash join on nonempty dash-free names -/

theorem joinDash_data : ∀ l : List String,
    (joinDash l).data = charJoin (l.map (·.data))
  | [] => rfl
  | [s] => rfl
  | s :: s' :: rest => by
      show (s ++ "-" ++ joinDash (s' :: rest)).data = _
      rw [String.data_append, String.data_append, joinDash_data (s' :: rest)]
      show s.data ++ ['-'] ++ _ = _
      rw [List.append_assoc]
      rfl

theorem charJoin_split {a₁ a₂ r₁ r₂ : List Char}
    (h₁ : '-' ∉ a₁) (h₂ : '-' ∉ a₂)
    (h : a₁ ++ '-' :: r₁ = a₂ ++ '-' :: r₂) : a₁ = a₂ ∧ r₁ = r₂ := by
  induction a₁ generalizing a₂ with
  | nil =>
      cases a₂ with
      | nil => exact ⟨rfl, by simpa using h⟩
      | cons b t =>
          exfalso
          have hb : b = '-' := by
            have := congrArg (·.head?) h
            simpa using this.symm
          exact h₂ (hb ▸ List.mem_cons_self b t)
  | cons a t ih =>
      cases a₂ with
      | nil =>
          exfalso
          have ha : a = '-' := by
            have := congrArg (·.head?) h
            simpa using this
          exact h₁ (ha ▸ List.mem_cons_self a t)
      | cons b t₂ =>
          have hab : a = b := by
            have := congrArg (·.head?) h
            simpa using this
          subst hab
          have ht : t ++ '-' :: r₁ = t₂ ++ '-' :: r₂ := by
            simpa using h
          obtain ⟨he, hr⟩ := ih (fun hm => h₁ (List.mem_cons_of_mem a hm))
            (fun hm => h₂ (List.mem_cons_of_mem a hm)) ht
          exact ⟨by rw [he], hr⟩

theorem charJoin_inj : ∀ l₁ l₂ : List (List Char),
    (∀ s ∈ l₁, s ≠ [] ∧ '-' ∉ s) → (∀ s ∈ l₂, s ≠ [] ∧ '-' ∉ s) →
    charJoin l₁ = charJoin l₂ → l₁ = l₂
  | [], [], _, _, _ => rfl
  | [], [s], _, h₂, h => absurd h.symm (h₂ s (List.mem_singleton_self s)).1
  | [s], [], h₁, _, h => absurd h (h₁ s (List.mem_singleton_self s)).1
  | [a], [b], _, _, h => by
      rw [show charJoin [a] = a from rfl, show charJoin [b] = b from rfl] at h
      rw [h]
  | [], s :: s' :: rest, _, h₂, h => by
      exfalso
      have : '-' ∈ s ++ '-' :: charJoin (s' :: rest) :=
        List.mem_append_right s (List.mem_cons_self _ _)
      rw [show charJoin (s :: s' :: rest) = s ++ '-' :: charJoin (s' :: rest) from rfl]
        at h
      rw [← h] at this
      cases this
  | s :: s' :: rest, [], h₁, _, h => by
      exfalso
      have : '-' ∈ s ++ '-' :: charJoin (s' :: rest) :=
        List.mem_append_right s (List.mem_cons_self _ _)
      rw [show charJoin (s :: s' :: rest) = s ++ '-' :: charJoin (s' :: rest) from rfl]
        at h
      rw [h] at this
      cases this
  | [a], b :: b' :: rest, h₁, h₂, h => by
      exfalso
      have hmem : '-' ∈ b ++ '-' :: charJoin (b' :: rest) :=
        List.mem_append_right b (List.mem_cons_self _ _)
      have ha : charJoin [a] = a := rfl
      rw [← show charJoin (b :: b' :: rest) = b ++ '-' :: charJoin (b' :: rest) from rfl,
        ← h, ha] at hmem
      exact (h₁ a (List.mem_singleton_self a)).2 hmem
  | a :: a' :: rest, [b], h₁, h₂, h => by
      exfalso
      have hmem : '-' ∈ a ++ '-' :: charJoin (a' :: rest) :=
        List.mem_append_right a (List.mem_cons_self _ _)
      have hb : charJoin [b] = b := rfl
      rw [← show charJoin (a :: a' :: rest) = a ++ '-' :: charJoin (a' :: rest) from rfl,
        h, hb] at hmem
      exact (h₂ b (List.mem_singleton_self b)).2 hmem
  | a :: a' :: ra, b :: b' :: rb, h₁, h₂, h => by
      rw [show charJoin (a :: a' :: ra) = a ++ '-' :: charJoin (a' :: ra) from rfl,
        show charJoin (b :: b' :: rb) = b ++ '-' :: charJoin (b' :: rb) from rfl] at h
      obtain ⟨hab, hr⟩ := charJoin_split (h₁ a (List.mem_cons_self _ _)).2
        (h₂ b (List.mem_cons_self _ _)).2 h
      have := charJoin_inj (a' :: ra) (b' :: rb)
        (fun s hs => h₁ s (List.mem_cons_of_mem a hs))
        (fun s hs => h₂ s (List.mem_cons_of_mem b hs)) hr
      rw [hab, this]

theorem joinDash_inj {l₁ l₂ : List String}
    (h₁ : ∀ s ∈ l₁, goodName s) (h₂ : ∀ s ∈ l₂, goodName s)
    (h : joinDash l₁ = joinDash l₂) : l₁ = l₂ := by
  have hdata : charJoin (l₁.map (·.data)) = charJoin (l₂.map (·.data)) := by
    rw [← joinDash_data, ← joinDash_data, h]
  have hgood : ∀ (l : List String), (∀ s ∈ l, goodName s) →
      ∀ s ∈ l.map (·.data), s ≠ [] ∧ '-' ∉ s := by
    intro l hl s hs
    rcases List.mem_map.mp hs with ⟨t, ht, rfl⟩
    obtain ⟨hne, hnd⟩ := hl t ht
    refine ⟨fun hnil => hne (string_data_inj hnil), hnd⟩
  have := charJoin_inj _ _ (hgood l₁ h₁) (hgood l₂ h₂) hdata
  exact List.map_injective_iff.mpr (fun a b hab => string_data_inj hab) this

/-! ## Step 2 lemmas: the routing tables -/

theorem assocLookup_append_of_isSome {α : Type} (m₁ m₂ : List (String × α))
    (k : String) (h : (assocLookup m₁ k).isSome) :
    assocLookup (m₁ ++ m₂) k = assocLookup m₁ k := by
  rw [assocLookup_append]
  cases hv : assocLookup m₁ k with
  | none => rw [hv] at h; cases h
  | some v => rfl

theorem assocLookup_eq_some_mem {α : Type} {m : List (String × α)} {k : String}
    {v : α} (h : assocLookup m k = some v) : (k, v) ∈ m := by
  unfold assocLookup at h
  cases hf : m.find? fun p => p.1 = k with
  | none => rw [hf] at h; cases h
  | some p =>
      rw [hf] at h
      have hp := List.mem_of_find?_eq_some hf
      have hk : p.1 = k := by simpa using List.find?_some hf
      obtain ⟨p1, p2⟩ := p
      have h2 : p2 = v := by simpa using h
      subst h2
      cases hk
      exact hp

theorem step2_fold_htb (css : List ClusterState) :
    ∀ (ho : List String) (acc : RoutingTables),
    (ho.foldl (step2Visit css) acc).hostToBackend =
      acc.hostToBackend ++ ho.map fun h => (h, combinationKey css h)
  | [], acc => by simp
  | a :: t, acc => by
      rw [List.foldl_cons, step2_fold_htb css t]
      show (step2Visit css acc a).hostToBackend ++ _ = _
      rw [show (step2Visit css acc a).hostToBackend =
        acc.hostToBackend ++ [(a, combinationKey css a)] from rfl]
      simp

theorem step2_htb_lookup (css : List ClusterState) (ho : List String)
    (h : String) :
    assocLookup (step2 css ho).hostToBackend h =
      if h ∈ ho then some (combinationKey css h) else none := by
  unfold step2
  rw [step2_fold_htb]
  show assocLookup (ho.map fun x => (x, combinationKey css x)) h = _
  induction ho with
  | nil => rfl
  | cons a t ih =>
      by_cases hah : a = h
      · subst hah; simp [assocLookup_cons]
      · rw [List.map_cons, assocLookup_cons, if_neg hah, ih]
        by_cases hmem : h ∈ t <;>
          simp [hmem, List.mem_cons, hah, Ne.symm hah]

theorem step2Visit_bcl_isSome_mono (css : List ClusterState)
    (acc : RoutingTables) (host k : String)
    (h : (assocLookup acc.backendCombinationList k).isSome) :
    (assocLookup (step2Visit css acc host).backendCombinationList k).isSome := by
  unfold step2Visit
  dsimp only
  split
  · exact h
  · rw [assocLookup_append_of_isSome _ _ _ h]
    exact h

theorem step2Visit_bcl_self (css : List ClusterState) (acc : RoutingTables)
    (host : String) :
    (assocLookup (step2Visit css acc host).backendCombinationList
      (combinationKey css host)).isSome := by
  unfold step2Visit
  dsimp only
  split
  · assumption
  · next hnone =>
      rw [assocLookup_append]
      cases hv : assocLookup acc.backendCombinationList (combinationKey css host) with
      | some v => simp
      | none => simp [assocLookup_cons, combinationKey]

theorem step2_fold_bcl_isSome (css : List ClusterState) :
    ∀ (ho : List String) (acc : RoutingTables) (h : String),
    (h ∈ ho ∨
      (assocLookup acc.backendCombinationList (combinationKey css h)).isSome) →
    (assocLookup (ho.foldl (step2Visit css) acc).backendCombinationList
      (combinationKey css h)).isSome
  | [], acc, h, hmem => by
      rcases hmem with hmem | hs
      · cases hmem
      · exact hs
  | a :: t, acc, h, hmem => by
      rw [List.foldl_cons]
      apply step2_fold_bcl_isSome css t
      rcases hmem with hmem | hs
      · rcases List.mem_cons.mp hmem with rfl | hmem'
        · exact .inr (step2Visit_bcl_self css acc h)
        · exact .inl hmem'
      · exact .inr (step2Visit_bcl_isSome_mono css acc a _ hs)

theorem step2_fold_bcl_entries (css : List ClusterState) :
    ∀ (ho : List String) (acc : RoutingTables),
    (∀ x ∈ ho, hostOccurs css x = true) →
    (∀ e ∈ acc.backendCombinationList,
      ∃ h, hostOccurs css h = true ∧ e.1 = combinationKey css h ∧
        e.2 = endpointsForClusters css (sortStrings (clustersForHost css h))) →
    ∀ e ∈ (ho.foldl (step2Visit css) acc).backendCombinationList,
      ∃ h, hostOccurs css h = true ∧ e.1 = combinationKey css h ∧
        e.2 = endpointsForClusters css (sortStrings (clustersForHost css h))
  | [], acc, _, hacc => hacc
  | a :: t, acc, hho, hacc => by
      rw [List.foldl_cons]
      apply step2_fold_bcl_entries css t
      · exact fun x hx => hho x (List.mem_cons_of_mem a hx)
      · intro e he
        unfold step2Visit at he
        dsimp only at he
        revert he
        split
        · exact fun he => hacc e he
        · intro he
          rcases List.mem_append.mp he with h' | h'
          · exact hacc e h'
          · refine ⟨a, hho a (List.mem_cons_self a t), ?_⟩
            rcases List.mem_singleton.mp h' with rfl
            exact ⟨rfl, rfl⟩

/-! ## Cluster-level lemmas -/

theorem mem_clustersForHost {css : List ClusterState} {host n : String}
    (h : n ∈ clustersForHost css host) : ∃ cs ∈ css, n = cs.Name := by
  unfold clustersForHost at h
  rw [List.mem_flatten] at h
  obtain ⟨l, hl, hn⟩ := h
  rw [List.mem_map] at hl
  obtain ⟨cs, hcs, rfl⟩ := hl
  exact ⟨cs, hcs, List.eq_of_mem_replicate hn⟩

theorem clustersForHost_ne_nil {css : List ClusterState} {host : String}
    (h : hostOccurs css host = true) : clustersForHost css host ≠ [] := by
  unfold hostOccurs at h
  rw [List.any_eq_true] at h
  obtain ⟨cs, hcs, hcount⟩ := h
  unfold clustersForHost
  intro hnil
  rw [List.flatten_eq_nil_iff] at hnil
  have hz := hnil _ (List.mem_map_of_mem _ hcs)
  rw [List.replicate_eq_nil_iff] at hz
  simp only [decide_eq_true_eq] at hcount
  exact hcount hz

theorem sorted_clusters_good {css : List ClusterState}
    (hnames : ∀ cs ∈ css, goodName cs.Name) (host : String) :
    ∀ s ∈ sortStrings (clustersForHost css host), goodName s := by
  intro s hs
  have hs' : s ∈ clustersForHost css host :=
    (sortStrings_perm (clustersForHost css host)).mem_iff.mp hs
  obtain ⟨cs, hcs, rfl⟩ := mem_clustersForHost hs'
  exact hnames cs hcs

theorem sorted_clusters_eq_of_key_eq {css : List ClusterState} {h₁ h₂ : String}
    (hnames : ∀ cs ∈ css, goodName cs.Name)
    (hk : combinationKey css h₁ = combinationKey css h₂) :
    sortStrings (clustersForHost css h₁) = sortStrings (clustersForHost css h₂) :=
  joinDash_inj (sorted_clusters_good hnames h₁) (sorted_clusters_good hnames h₂) hk

theorem lookupCluster_mem {css : List ClusterState} {n : String}
    (h : ∃ cs ∈ css, n = cs.Name) :
    lookupCluster css n ∈ css ∧ (lookupCluster css n).Name = n := by
  obtain ⟨cs, hcs, hn⟩ := h
  unfold lookupCluster
  have hs : (css.find? fun c => c.Name = n).isSome :=
    List.find?_isSome.mpr ⟨cs, hcs, by simp [hn]⟩
  cases hf : css.find? fun c => c.Name = n with
  | none => rw [hf] at hs; cases hs
  | some c =>
      refine ⟨by simpa using List.mem_of_find?_eq_some hf, ?_⟩
      have := List.find?_some hf
      simpa using this

theorem endpointsForClusters_ne_nil {css : List ClusterState}
    {clusters : List String} (hne : clusters ≠ [])
    (hmemname : ∀ n ∈ clusters, ∃ cs ∈ css, n = cs.Name)
    (hb : ∀ cs ∈ css, cs.Backends ≠ []) :
    endpointsForClusters css clusters ≠ [] := by
  cases clusters with
  | nil => exact absurd rfl hne
  | cons n rest =>
      unfold endpointsForClusters
      rw [List.map_cons, List.flatten_cons]
      intro hnil
      rw [List.append_eq_nil] at hnil
      obtain ⟨hmem, _⟩ := lookupCluster_mem (hmemname n (List.mem_cons_self n rest))
      exact hb _ hmem hnil.1

theorem step2_bcl_lookup_of_good (css : List ClusterState) (ho : List String)
    (h : String) (hnames : ∀ cs ∈ css, goodName cs.Name)
    (hho : ∀ x ∈ ho, hostOccurs css x = true) (hh : h ∈ ho) :
    assocLookup (step2 css ho).backendCombinationList (combinationKey css h) =
      some (endpointsForClusters css (sortStrings (clustersForHost css h))) := by
  have hs : (assocLookup (step2 css ho).backendCombinationList
      (combinationKey css h)).isSome :=
    step2_fold_bcl_isSome css ho ⟨[], []⟩ h (.inl hh)
  obtain ⟨v, hv⟩ := Option.isSome_iff_exists.mp hs
  have hmem := assocLookup_eq_some_mem hv
  have hgood := step2_fold_bcl_entries css ho ⟨[], []⟩ hho
    (by intro e he; cases he) _ hmem
  obtain ⟨h', hocc', hkey, hval⟩ := hgood
  dsimp only at hkey hval
  have heq := sorted_clusters_eq_of_key_eq hnames hkey
  rw [hv, hval, heq]

/-! ## Host occurrence lemmas -/

theorem hostOccCount_ne_zero_iff (cs : ClusterState) (h : String) :
    hostOccCount cs h ≠ 0 ↔ h ∈ (cs.Ingresses.map (·.Hosts)).flatten := by
  unfold hostOccCount
  rw [Ne, List.count_eq_zero]
  exact not_not

theorem mem_allHosts_iff (css : List ClusterState) (h : String) :
    h ∈ allHosts css ↔ hostOccurs css h = true := by
  unfold allHosts hostOccurs
  rw [List.mem_flatten, List.any_eq_true]
  constructor
  · rintro ⟨l, hl, hh⟩
    rw [List.mem_map] at hl
    obtain ⟨cs, hcs, rfl⟩ := hl
    exact ⟨cs, hcs, by simpa [hostOccCount_ne_zero_iff] using hh⟩
  · rintro ⟨cs, hcs, hc⟩
    simp only [decide_eq_true_eq] at hc
    exact ⟨_, List.mem_map_of_mem _ hcs, (hostOccCount_ne_zero_iff cs h).mp hc⟩

theorem mem_hostOrder_iff {css : List ClusterState} {ho : List String}
    (hho : ho.Perm (allHosts css).dedup) (h : String) :
    h ∈ ho ↔ hostOccurs css h = true := by
  rw [hho.mem_iff, List.mem_dedup, mem_allHosts_iff]

theorem clusterServesHost_iff (cs : ClusterState) (h : String) :
    clusterServesHost cs h = true ↔ hostOccCount cs h ≠ 0 := by
  unfold clusterServesHost
  rw [List.any_eq_true, hostOccCount_ne_zero_iff, List.mem_flatten]
  constructor
  · rintro ⟨i, hi, hcont⟩
    exact ⟨i.Hosts, List.mem_map_of_mem _ hi, by simpa using hcont⟩
  · rintro ⟨l, hl, hmem⟩
    rw [List.mem_map] at hl
    obtain ⟨i, hi, rfl⟩ := hl
    exact ⟨i, hi, by simpa using hmem⟩

theorem clustersForHost_eq_servingClusters {css : List ClusterState} {h : String}
    (honce : ∀ cs ∈ css, hostOccCount cs h ≤ 1) :
    clustersForHost css h = servingClusters css h := by
  induction css with
  | nil => rfl
  | cons cs t ih =>
      have hle := honce cs (List.mem_cons_self cs t)
      have ihe := ih fun c hc => honce c (List.mem_cons_of_mem cs hc)
      unfold clustersForHost servingClusters at ihe ⊢
      rw [List.map_cons, List.flatten_cons, List.filter_cons]
      cases hc : hostOccCount cs h with
      | zero =>
          have hserve : ¬(clusterServesHost cs h = true) := fun hs =>
            (clusterServesHost_iff cs h).mp hs hc
          rw [List.replicate_zero, List.nil_append, if_neg hserve, ihe]
      | succ n =>
          have hn : n = 0 := by rw [hc] at hle; omega
          subst hn
          have hserve : clusterServesHost cs h = true :=
            (clusterServesHost_iff cs h).mpr (by rw [hc]; exact one_ne_zero)
          rw [List.replicate_one, List.singleton_append, if_pos hserve,
            List.map_cons, ihe]

/-! ## Claims C1 and C5 -/

/-- C1 (amended).  Provided cluster names are nonempty and dash-free and no
cluster lists the host more than once across its ingresses, the derivation
maps the host to the dash-joined lexicographically sorted names of exactly
the clusters whose ingresses list it, and maps that key to the
concatenation, in sorted cluster order (preserving per-cluster insertion
order), of those clusters' backend endpoints. -/
theorem claim_C1_amended (css : List ClusterState) (hostOrder : List String)
    (certs : List CertificateInternal) (scans : Nat → List String) (h : String)
    (hnames : ∀ cs ∈ css, goodName cs.Name)
    (honce : ∀ cs ∈ css, hostOccCount cs h ≤ 1)
    (hho : hostOrder.Perm (allHosts css).dedup)
    (hocc : hostOccurs css h = true) :
    assocLookup (rebuildConfig css hostOrder certs scans).1.HostToBackend h =
      some (joinDash (sortStrings (servingClusters css h))) ∧
    assocLookup (rebuildConfig css hostOrder certs scans).1.BackendCombinationList
        (joinDash (sortStrings (servingClusters css h))) =
      some (endpointsForClusters css (sortStrings (servingClusters css h))) := by
  have hserv := clustersForHost_eq_servingClusters honce
  have hkey : combinationKey css h = joinDash (sortStrings (servingClusters css h)) := by
    unfold combinationKey; rw [hserv]
  have hmem : h ∈ hostOrder := (mem_hostOrder_iff hho h).mpr hocc
  constructor
  · show assocLookup (step2 css hostOrder).hostToBackend h = _
    rw [step2_htb_lookup, if_pos hmem, hkey]
  · show assocLookup (step2 css hostOrder).backendCombinationList _ = _
    rw [← hkey, ← hserv]
    exact step2_bcl_lookup_of_good css hostOrder h hnames
      (fun x hx => (mem_hostOrder_iff hho x).mp hx) hmem

/-- C1 counterexample: a cluster that lists the same host in two ingresses
yields the key `A-A`, not the dash-join `A` of the set of serving
clusters. -/
theorem claim_C1_counterexample :
    assocLookup (rebuildConfig [⟨"A", [⟨"i1", ["h"]⟩, ⟨"i2", ["h"]⟩], [⟨"b", 1⟩]⟩]
        ["h"] [] fun _ => ["h"]).1.HostToBackend "h" ≠
      some (joinDash (sortStrings (servingClusters
        [⟨"A", [⟨"i1", ["h"]⟩, ⟨"i2", ["h"]⟩], [⟨"b", 1⟩]⟩] "h"))) := by
  decide

/-- C1 witness: the amended claim applied to a single healthy cluster. -/
theorem claim_C1_witness :
    (∀ cs ∈ [(⟨"A", [⟨"i", ["h"]⟩], [⟨"b", 1⟩]⟩ : ClusterState)], goodName cs.Name) ∧
    (∀ cs ∈ [(⟨"A", [⟨"i", ["h"]⟩], [⟨"b", 1⟩]⟩ : ClusterState)], hostOccCount cs "h" ≤ 1) ∧
    (["h"].Perm (allHosts [(⟨"A", [⟨"i", ["h"]⟩], [⟨"b", 1⟩]⟩ : ClusterState)]).dedup) ∧
    (hostOccurs [(⟨"A", [⟨"i", ["h"]⟩], [⟨"b", 1⟩]⟩ : ClusterState)] "h" = true) ∧
    assocLookup (rebuildConfig [(⟨"A", [⟨"i", ["h"]⟩], [⟨"b", 1⟩]⟩ : ClusterState)]
        ["h"] [] fun _ => ["h"]).1.HostToBackend "h" =
      some (joinDash (sortStrings (servingClusters
        [(⟨"A", [⟨"i", ["h"]⟩], [⟨"b", 1⟩]⟩ : ClusterState)] "h"))) :=
  ⟨by decide, by decide, by decide, by decide,
    (claim_C1_amended _ _ [] (fun _ => ["h"]) "h"
      (by decide) (by decide) (by decide) (by decide)).1⟩

/-- C5 (amended).  Provided every stored cluster snapshot has at least one
backend endpoint, every backend-combination key referenced by some host in
the host-to-backend table maps to a non-empty endpoint list. -/
theorem claim_C5_amended (css : List ClusterState) (hostOrder : List String)
    (certs : List CertificateInternal) (scans : Nat → List String)
    (host key : String)
    (hho : ∀ x ∈ hostOrder, hostOccurs css x = true)
    (hb : ∀ cs ∈ css, cs.Backends ≠ [])
    (hlook : assocLookup (rebuildConfig css hostOrder certs scans).1.HostToBackend
      host = some key) :
    ∃ eps, assocLookup
        (rebuildConfig css hostOrder certs scans).1.BackendCombinationList key =
      some eps ∧ eps ≠ [] := by
  have hlook' : assocLookup (step2 css hostOrder).hostToBackend host = some key :=
    hlook
  rw [step2_htb_lookup] at hlook'
  by_cases hmem : host ∈ hostOrder
  · rw [if_pos hmem] at hlook'
    have hkey : key = combinationKey css host := by
      cases hlook'; rfl
    subst hkey
    have hs : (assocLookup (step2 css hostOrder).backendCombinationList
        (combinationKey css host)).isSome :=
      step2_fold_bcl_isSome css hostOrder ⟨[], []⟩ host (.inl hmem)
    obtain ⟨v, hv⟩ := Option.isSome_iff_exists.mp hs
    refine ⟨v, hv, ?_⟩
    have hgood := step2_fold_bcl_entries css hostOrder ⟨[], []⟩ hho
      (by intro e he; cases he) _ (assocLookup_eq_some_mem hv)
    obtain ⟨h', hocc', _, hval⟩ := hgood
    dsimp only at hval
    rw [hval]
    apply endpointsForClusters_ne_nil
    · intro hnil
      exact clustersForHost_ne_nil hocc'
        ((hnil ▸ sortStrings_perm (clustersForHost css h')).symm.eq_nil)
    · intro n hn
      exact mem_clustersForHost
        ((sortStrings_perm (clustersForHost css h')).mem_iff.mp hn)
    · exact hb
  · rw [if_neg hmem] at hlook'
    cases hlook'

/-- C5 counterexample: a cluster with an ingress but no backend endpoints
produces a referenced combination key mapped to the empty endpoint list. -/
theorem claim_C5_counterexample :
    assocLookup (rebuildConfig [⟨"A", [⟨"i", ["h"]⟩], []⟩] ["h"] []
        fun _ => ["h"]).1.HostToBackend "h" = some "A" ∧
    assocLookup (rebuildConfig [⟨"A", [⟨"i", ["h"]⟩], []⟩] ["h"] []
        fun _ => ["h"]).1.BackendCombinationList "A" = some [] := by
  decide

/-- C5 witness: the amended claim applied to a single healthy cluster. -/
theorem claim_C5_witness :
    (∀ x ∈ ["h"], hostOccurs [(⟨"A", [⟨"i", ["h"]⟩], [⟨"b", 1⟩]⟩ : ClusterState)] x = true) ∧
    (∀ cs ∈ [(⟨"A", [⟨"i", ["h"]⟩], [⟨"b", 1⟩]⟩ : ClusterState)], cs.Backends ≠ []) ∧
    (assocLookup (rebuildConfig [(⟨"A", [⟨"i", ["h"]⟩], [⟨"b", 1⟩]⟩ : ClusterState)]
      ["h"] [] fun _ => ["h"]).1.HostToBackend "h" = some "A") ∧
    ∃ eps, assocLookup (rebuildConfig [(⟨"A", [⟨"i", ["h"]⟩], [⟨"b", 1⟩]⟩ : ClusterState)]
        ["h"] [] fun _ => ["h"]).1.BackendCombinationList "A" = some eps ∧ eps ≠ [] :=
  ⟨by decide, by decide, by decide,
    claim_C5_amended _ ["h"] [] (fun _ => ["h"]) "h" "A"
      (by decide) (by decide) (by decide)⟩

/-! ## Step 3 lemmas: certificate selection -/

theorem foldl_congr_id {α β : Type} (f : α → β → α) (l : List β) (a : α)
    (h : ∀ x ∈ l, ∀ acc, f acc x = acc) : l.foldl f a = a := by
  induction l generalizing a with
  | nil => rfl
  | cons b t ih =>
      rw [List.foldl_cons, h b (List.mem_cons_self b t)]
      exact ih a fun x hx => h x (List.mem_cons_of_mem b hx)

theorem processPattern_no_match (table : List (String × String))
    (scans : Nat → List String) (certName : String) (acc : PatternAcc)
    (pattern : String) (h1 : hasStar pattern = false)
    (h2 : assocLookup table pattern = none) :
    processPattern table scans certName acc pattern = acc := by
  unfold processPattern
  rw [if_neg (by simp [h1]), if_neg (by simp [h2])]

theorem processCert_skip (table : List (String × String))
    (scans : Nat → List String) (acc : CertAcc) (cert : CertificateInternal)
    (h : ∀ p ∈ cert.Domains, hasStar p = false ∧ assocLookup table p = none) :
    processCert table scans acc cert = acc := by
  unfold processCert
  rw [foldl_congr_id _ _ _ fun p hp a =>
    processPattern_no_match table scans cert.Name a p (h p hp).1 (h p hp).2]
  rfl

theorem step3_skip (table : List (String × String))
    (certs₁ certs₂ : List CertificateInternal) (scans : Nat → List String)
    (cert : CertificateInternal)
    (h : ∀ p ∈ cert.Domains, hasStar p = false ∧ assocLookup table p = none) :
    step3 table (certs₁ ++ cert :: certs₂) scans =
      step3 table (certs₁ ++ certs₂) scans := by
  unfold step3
  rw [List.foldl_append, List.foldl_cons, processCert_skip _ _ _ _ h,
    ← List.foldl_append]

/-! ## Claim C8 -/

/-- C8 (confirmed).  A certificate with no wildcard pattern and an empty
filtered host list against the routing table contributes nothing to the
derivation: removing it from the configured list leaves the result
unchanged, so it consumes no SNI entry and no port, and the next used
certificate receives the port the skipped one would have had. -/
theorem claim_C8 (css : List ClusterState) (hostOrder : List String)
    (certs₁ certs₂ : List CertificateInternal) (scans : Nat → List String)
    (cert : CertificateInternal)
    (hdead : ∀ p ∈ cert.Domains, hasStar p = false ∧
      assocLookup (step2 css hostOrder).hostToBackend p = none) :
    rebuildConfig css hostOrder (certs₁ ++ cert :: certs₂) scans =
      rebuildConfig css hostOrder (certs₁ ++ certs₂) scans := by
  unfold rebuildConfig
  dsimp only
  rw [step3_skip _ _ _ _ _ hdead]

/-- C8 witness: a dead certificate between two used ones changes nothing;
in particular the certificate after it still gets port 12346. -/
theorem claim_C8_witness :
    (∀ p ∈ (⟨"dead", "/d", ["zzz"]⟩ : CertificateInternal).Domains,
      hasStar p = false ∧
      assocLookup (step2 [(⟨"A", [⟨"i", ["h"]⟩], [⟨"b", 1⟩]⟩ : ClusterState)]
        ["h"]).hostToBackend p = none) ∧
    rebuildConfig [(⟨"A", [⟨"i", ["h"]⟩], [⟨"b", 1⟩]⟩ : ClusterState)] ["h"]
        ([⟨"c1", "/p1", ["h"]⟩] ++ (⟨"dead", "/d", ["zzz"]⟩ : CertificateInternal) ::
          [⟨"c2", "/p2", ["h"]⟩]) (fun _ => ["h"]) =
      rebuildConfig [(⟨"A", [⟨"i", ["h"]⟩], [⟨"b", 1⟩]⟩ : ClusterState)] ["h"]
        ([⟨"c1", "/p1", ["h"]⟩] ++ [⟨"c2", "/p2", ["h"]⟩]) (fun _ => ["h"]) :=
  ⟨by decide,
    claim_C8 [(⟨"A", [⟨"i", ["h"]⟩], [⟨"b", 1⟩]⟩ : ClusterState)] ["h"]
      [⟨"c1", "/p1", ["h"]⟩] [⟨"c2", "/p2", ["h"]⟩] (fun _ => ["h"])
      (⟨"dead", "/d", ["zzz"]⟩ : CertificateInternal) (by decide)⟩

/-! ## Claim C7: port uniqueness -/

theorem processCert_sni_port (table : List (String × String))
    (scans : Nat → List String) (acc : CertAcc) (cert : CertificateInternal) :
    ((processCert table scans acc cert).sniList = acc.sniList ∧
     (processCert table scans acc cert).port = acc.port) ∨
    (∃ d : SniDetail, d.LocalForwardPort = acc.port ∧
     (processCert table scans acc cert).sniList = assocSet acc.sniList cert.Name d ∧
     (processCert table scans acc cert).port = acc.port + 1) := by
  unfold processCert
  dsimp only
  split
  · exact .inl ⟨rfl, rfl⟩
  · exact .inr ⟨_, rfl, rfl, rfl⟩

theorem sni_insert_inv {sni : List (String × SniDetail)} {port : Nat}
    (hkeys : (sni.map Prod.fst).Nodup)
    (hports : (sni.map fun e => e.2.LocalForwardPort).Nodup)
    (hbound : ∀ e ∈ sni, 12345 ≤ e.2.LocalForwardPort ∧ e.2.LocalForwardPort < port)
    (hp : 12345 ≤ port) (n : String) (d : SniDetail)
    (hd : d.LocalForwardPort = port) :
    ((assocSet sni n d).map Prod.fst).Nodup ∧
    ((assocSet sni n d).map fun e => e.2.LocalForwardPort).Nodup ∧
    (∀ e ∈ assocSet sni n d,
      12345 ≤ e.2.LocalForwardPort ∧ e.2.LocalForwardPort < port + 1) := by
  refine ⟨assocSet_keys_nodup hkeys, ?_, ?_⟩
  · by_cases hmem : n ∈ sni.map Prod.fst
    · obtain ⟨m₁, w, m₂, hdecomp, hset⟩ := assocSet_decomp sni n d hkeys hmem
      rw [hset, List.map_append, List.map_cons]
      rw [hdecomp, List.map_append, List.map_cons] at hports
      rw [List.nodup_middle] at hports ⊢
      have hrest := (List.nodup_cons.mp hports).2
      refine List.nodup_cons.mpr ⟨?_, hrest⟩
      intro hmem'
      rcases List.mem_append.mp hmem' with hq | hq
      · obtain ⟨e, he, hge⟩ := List.mem_map.mp hq
        have hes : e ∈ sni := hdecomp ▸ List.mem_append_left _ he
        exact Nat.lt_irrefl _ ((hge.trans hd) ▸ (hbound e hes).2)
      · obtain ⟨e, he, hge⟩ := List.mem_map.mp hq
        have hes : e ∈ sni :=
          hdecomp ▸ List.mem_append_right _ (List.mem_cons_of_mem _ he)
        exact Nat.lt_irrefl _ ((hge.trans hd) ▸ (hbound e hes).2)
    · rw [assocSet_of_not_mem sni n d hmem, List.map_append, List.map_cons]
      refine List.Nodup.append hports (by simp) ?_
      intro q hq hq'
      obtain ⟨e, he, hge⟩ := List.mem_map.mp hq
      rw [List.map_nil, List.mem_singleton] at hq'
      subst hq'
      exact Nat.lt_irrefl _ ((hge.trans hd) ▸ (hbound e he).2)
  · intro e he
    rcases mem_assocSet he with rfl | he'
    · exact ⟨hd ▸ hp, by rw [hd]; exact Nat.lt_succ_self port⟩
    · exact ⟨(hbound e he').1, Nat.lt_succ_of_lt (hbound e he').2⟩

theorem step3_fold_port_inv (table : List (String × String))
    (scans : Nat → List String) :
    ∀ (certs : List CertificateInternal) (acc : CertAcc),
    ((acc.sniList.map Prod.fst).Nodup) →
    ((acc.sniList.map fun e => e.2.LocalForwardPort).Nodup) →
    (∀ e ∈ acc.sniList,
      12345 ≤ e.2.LocalForwardPort ∧ e.2.LocalForwardPort < acc.port) →
    12345 ≤ acc.port →
    (((certs.foldl (processCert table scans) acc).sniList.map Prod.fst).Nodup) ∧
    (((certs.foldl (processCert table scans) acc).sniList.map
      fun e => e.2.LocalForwardPort).Nodup) ∧
    (∀ e ∈ (certs.foldl (processCert table scans) acc).sniList,
      12345 ≤ e.2.LocalForwardPort ∧
        e.2.LocalForwardPort < (certs.foldl (processCert table scans) acc).port) ∧
    12345 ≤ (certs.foldl (processCert table scans) acc).port ∧
    (certs.foldl (processCert table scans) acc).port ≤ acc.port + certs.length
  | [], acc, hk, hp, hb, hge => ⟨hk, hp, hb, hge, Nat.le_refl _⟩
  | c :: t, acc, hk, hp, hb, hge => by
      rw [List.foldl_cons]
      rcases processCert_sni_port table scans acc c with ⟨hs, hpt⟩ | ⟨d, hd, hs, hpt⟩
      · have ih := step3_fold_port_inv table scans t (processCert table scans acc c)
          (hs ▸ hk) (hs ▸ hp) (by rw [hs, hpt]; exact hb) (hpt ▸ hge)
        refine ⟨ih.1, ih.2.1, ih.2.2.1, ih.2.2.2.1, ?_⟩
        calc (t.foldl (processCert table scans) (processCert table scans acc c)).port
            ≤ (processCert table scans acc c).port + t.length := ih.2.2.2.2
          _ ≤ acc.port + (c :: t).length := by rw [hpt, List.length_cons]; omega
      · obtain ⟨hk', hp', hb'⟩ := sni_insert_inv hk hp hb hge c.Name d hd
        have ih := step3_fold_port_inv table scans t (processCert table scans acc c)
          (hs ▸ hk') (hs ▸ hp') (by rw [hs, hpt]; exact hb') (by rw [hpt]; omega)
        refine ⟨ih.1, ih.2.1, ih.2.2.1, ih.2.2.2.1, ?_⟩
        calc (t.foldl (processCert table scans) (processCert table scans acc c)).port
            ≤ (processCert table scans acc c).port + t.length := ih.2.2.2.2
          _ ≤ acc.port + (c :: t).length := by rw [hpt, List.length_cons]; omega

/-- C7 (confirmed).  Within one derivation run, the local forwarding ports
of the SNI entries actually recorded are pairwise distinct and lie in
`[12345, 12345 + N)` where `N` is the number of configured certificates. -/
theorem claim_C7 (css : List ClusterState) (hostOrder : List String)
    (certs : List CertificateInternal) (scans : Nat → List String) :
    (((rebuildConfig css hostOrder certs scans).1.SniList.map
      fun e => e.2.LocalForwardPort).Nodup) ∧
    ∀ e ∈ (rebuildConfig css hostOrder certs scans).1.SniList,
      12345 ≤ e.2.LocalForwardPort ∧
        e.2.LocalForwardPort < 12345 + certs.length := by
  have h := step3_fold_port_inv (step2 css hostOrder).hostToBackend scans certs
    ⟨[], 12345, [], "", 0⟩ (by simp) (by simp) (by intro e he; cases he)
    (Nat.le_refl _)
  exact ⟨h.2.1, fun e he =>
    ⟨(h.2.2.1 e he).1, Nat.lt_of_lt_of_le (h.2.2.1 e he).2 h.2.2.2.2⟩⟩

/-! ## Claim C3: host-to-certificate selection -/

theorem wildcardFold_htc_lookup (certName suffix : String) :
    ∀ (scan : List String) (u : List String) (m : List (String × String))
      (h : String),
    assocLookup (scan.foldl (wildcardVisit certName suffix) (u, m)).2 h =
      if h ∈ scan ∧ goHasSuffix h suffix = true then some certName
      else assocLookup m h
  | [], u, m, h => by simp
  | a :: t, u, m, h => by
      rw [List.foldl_cons]
      by_cases ha : goHasSuffix a suffix = true
      · rw [show wildcardVisit certName suffix (u, m) a =
            (u ++ [a], assocSet m a certName) from by
          unfold wildcardVisit; rw [if_pos ha]]
        rw [wildcardFold_htc_lookup certName suffix t (u ++ [a])
          (assocSet m a certName) h]
        by_cases hmt : h ∈ t ∧ goHasSuffix h suffix = true
        · rw [if_pos hmt, if_pos ⟨List.mem_cons_of_mem a hmt.1, hmt.2⟩]
        · rw [if_neg hmt]
          by_cases hha : h = a
          · subst hha
            rw [assocLookup_assocSet_self,
              if_pos ⟨List.mem_cons_self h t, ha⟩]
          · rw [assocLookup_assocSet_other m a h certName hha]
            have : ¬(h ∈ a :: t ∧ goHasSuffix h suffix = true) := by
              rintro ⟨hmem, hsuf⟩
              rcases List.mem_cons.mp hmem with rfl | hmem'
              · exact hha rfl
              · exact hmt ⟨hmem', hsuf⟩
            rw [if_neg this]
      · rw [show wildcardVisit certName suffix (u, m) a = (u, m) from by
          unfold wildcardVisit; rw [if_neg ha]]
        rw [wildcardFold_htc_lookup certName suffix t u m h]
        by_cases hmt : h ∈ t ∧ goHasSuffix h suffix = true
        · rw [if_pos hmt, if_pos ⟨List.mem_cons_of_mem a hmt.1, hmt.2⟩]
        · rw [if_neg hmt]
          have : ¬(h ∈ a :: t ∧ goHasSuffix h suffix = true) := by
            rintro ⟨hmem, hsuf⟩
            rcases List.mem_cons.mp hmem with rfl | hmem'
            · exact ha hsuf
            · exact hmt ⟨hmem', hsuf⟩
          rw [if_neg this]

theorem processPattern_htc_lookup (table : List (String × String))
    (scans : Nat → List String) (certName : String) (acc : PatternAcc)
    (pattern h : String) (hscan : ∀ i, h ∈ scans i)
    (htable : (assocLookup table h).isSome) :
    assocLookup (processPattern table scans certName acc pattern).hostToCert h =
      if patternMatches pattern h then some certName
      else assocLookup acc.hostToCert h := by
  unfold processPattern patternMatches
  by_cases hstar : hasStar pattern = true
  · rw [if_pos hstar, if_pos hstar]
    dsimp only
    rw [wildcardFold_htc_lookup]
    rw [if_congr (iff_of_eq (congrArg _ rfl)) rfl rfl]
    by_cases hsuf : goHasSuffix h (trimStars pattern) = true
    · rw [if_pos ⟨hscan acc.scanIdx, hsuf⟩, if_pos hsuf]
    · rw [if_neg fun hc => hsuf hc.2, if_neg hsuf]
  · rw [if_neg hstar, if_neg hstar]
    by_cases hhit : (assocLookup table pattern).isSome
    · rw [if_pos hhit]
      dsimp only
      by_cases hph : pattern = h
      · subst hph
        rw [assocLookup_assocSet_self, if_pos (by simp)]
      · rw [assocLookup_assocSet_other _ _ _ _ fun e => hph e.symm,
          if_neg (by simpa using hph)]
    · rw [if_neg hhit]
      have hph : pattern ≠ h := fun he => hhit (he ▸ htable)
      rw [if_neg (by simpa using hph)]

theorem patterns_htc_lookup (table : List (String × String))
    (scans : Nat → List String) (certName : String) :
    ∀ (ds : List String) (acc : PatternAcc) (h : String),
    (∀ i, h ∈ scans i) → (assocLookup table h).isSome →
    assocLookup (ds.foldl (processPattern table scans certName) acc).hostToCert h =
      if ds.any fun p => patternMatches p h then some certName
      else assocLookup acc.hostToCert h
  | [], acc, h, _, _ => by simp
  | p :: t, acc, h, hscan, htable => by
      rw [List.foldl_cons,
        patterns_htc_lookup table scans certName t _ h hscan htable,
        processPattern_htc_lookup table scans certName acc p h hscan htable]
      by_cases hp : patternMatches p h = true
      · by_cases ht : t.any (fun p => patternMatches p h) = true
        · rw [if_pos ht, if_pos (by simp [List.any_cons, hp])]
        · rw [if_neg ht, if_pos hp, if_pos (by simp [List.any_cons, hp])]
      · by_cases ht : t.any (fun p => patternMatches p h) = true
        · rw [if_pos ht, if_pos (by simp [List.any_cons, ht])]
        · rw [if_neg ht, if_neg hp, if_neg (by simp [List.any_cons, hp, ht])]

theorem processCert_htc_lookup (table : List (String × String))
    (scans : Nat → List String) (acc : CertAcc) (cert : CertificateInternal)
    (h : String) (hscan : ∀ i, h ∈ scans i)
    (htable : (assocLookup table h).isSome) :
    assocLookup (processCert table scans acc cert).hostToCert h =
      if certMatchesHost cert h then some cert.Name
      else assocLookup acc.hostToCert h := by
  unfold processCert certMatchesHost
  dsimp only
  split <;>
    exact patterns_htc_lookup table scans cert.Name cert.Domains _ h hscan htable

theorem step3_fold_htc_lookup (table : List (String × String))
    (scans : Nat → List String) :
    ∀ (certs : List CertificateInternal) (acc : CertAcc) (h : String),
    (∀ i, h ∈ scans i) → (assocLookup table h).isSome →
    assocLookup (certs.foldl (processCert table scans) acc).hostToCert h =
      match (certs.filter fun c => certMatchesHost c h).getLast? with
      | some c => some c.Name
      | none => assocLookup acc.hostToCert h
  | [], acc, h, _, _ => by simp
  | c :: t, acc, h, hscan, htable => by
      rw [List.foldl_cons,
        step3_fold_htc_lookup table scans t _ h hscan htable,
        List.filter_cons]
      by_cases hc : certMatchesHost c h = true
      · rw [if_pos hc]
        cases hl : (t.filter fun c => certMatchesHost c h).getLast? with
        | some c' =>
            rw [List.getLast?_cons, hl]
            simp only [Option.getD_some]
        | none =>
            rw [List.getLast?_cons, hl]
            simp only [Option.getD_none]
            rw [processCert_htc_lookup table scans acc c h hscan htable,
              if_pos hc]
      · rw [if_neg hc]
        cases hl : (t.filter fun c => certMatchesHost c h).getLast? with
        | some c' => rfl
        | none =>
            rw [processCert_htc_lookup table scans acc c h hscan htable,
              if_neg hc]

/-- C3 (amended).  For every routing-table host, the derived
host-to-certificate table records the certificate that comes last in
configuration order among those whose patterns match the host (exactly, or
by wildcard suffix): each matching certificate overwrites the entry, so
with several matches the last one wins, not the first. -/
theorem claim_C3_amended (css : List ClusterState) (hostOrder : List String)
    (certs : List CertificateInternal) (scans : Nat → List String) (h : String)
    (hscans : ∀ i, (scans i).Perm hostOrder) (hmem : h ∈ hostOrder) :
    assocLookup (rebuildConfig css hostOrder certs scans).2 h =
      ((certs.filter fun c => certMatchesHost c h).getLast?).map (·.Name) := by
  have htable : (assocLookup (step2 css hostOrder).hostToBackend h).isSome := by
    rw [step2_htb_lookup, if_pos hmem]; rfl
  show assocLookup
    (step3 (step2 css hostOrder).hostToBackend certs scans).hostToCert h = _
  unfold step3
  rw [step3_fold_htc_lookup _ scans certs _ h
    (fun i => (hscans i).mem_iff.mpr hmem) htable]
  cases hl : (certs.filter fun c => certMatchesHost c h).getLast? with
  | some c => simp
  | none => simp [assocLookup_nil]

/-- C3 counterexample: with two certificates both matching `h`, the table
records the second one, not the first-winning certificate the claim
states. -/
theorem claim_C3_counterexample :
    assocLookup (rebuildConfig [⟨"A", [⟨"i", ["h"]⟩], [⟨"b", 1⟩]⟩] ["h"]
        [⟨"c1", "/p1", ["h"]⟩, ⟨"c2", "/p2", ["h"]⟩] fun _ => ["h"]).2 "h" ≠
      ((([⟨"c1", "/p1", ["h"]⟩, ⟨"c2", "/p2", ["h"]⟩] :
          List CertificateInternal).filter
        fun c => certMatchesHost c "h").head?).map (·.Name) := by
  decide

/-- C3 witness: the amended claim at a concrete input with two matching
certificates; the recorded certificate is the last matching one. -/
theorem claim_C3_witness :
    (∀ i : Nat, ((fun _ : Nat => ["h"]) i).Perm ["h"]) ∧ ("h" ∈ ["h"]) ∧
    assocLookup (rebuildConfig [(⟨"A", [⟨"i", ["h"]⟩], [⟨"b", 1⟩]⟩ : ClusterState)]
        ["h"] [⟨"c1", "/p1", ["h"]⟩, ⟨"c2", "/p2", ["h"]⟩] fun _ => ["h"]).2 "h" =
      ((([⟨"c1", "/p1", ["h"]⟩, ⟨"c2", "/p2", ["h"]⟩] :
          List CertificateInternal).filter
        fun c => certMatchesHost c "h").getLast?).map (·.Name) :=
  ⟨fun _ => List.Perm.refl ["h"], by decide,
    claim_C3_amended [(⟨"A", [⟨"i", ["h"]⟩], [⟨"b", 1⟩]⟩ : ClusterState)] ["h"]
      [⟨"c1", "/p1", ["h"]⟩, ⟨"c2", "/p2", ["h"]⟩] (fun _ => ["h"]) "h"
      (fun _ => List.Perm.refl ["h"]) (by decide)⟩

/-! ## Claims C9 and C10: the aggregator -/

theorem swap_dropLast_perm {α : Type} (d : α) :
    ∀ (l : List α) (i : Nat), i < l.length →
      ((l.set i (l.getLast?.getD d)).dropLast).Perm (l.eraseIdx i)
  | [], i, hi => absurd hi (Nat.not_lt_zero i)
  | x :: t, 0, _ => by
      cases t with
      | nil => simp
      | cons y u =>
          rw [List.getLast?_cons_cons, List.set_cons_zero,
            List.getLast?_eq_getLast (y :: u) (List.cons_ne_nil y u),
            Option.getD_some, List.eraseIdx_cons_zero,
            List.dropLast_cons_of_ne_nil (List.cons_ne_nil y u)]
          have hsplit := List.dropLast_append_getLast (List.cons_ne_nil y u)
          exact List.Perm.trans (List.perm_append_singleton _ _).symm
            (by rw [hsplit])
  | x :: t, i + 1, hi => by
      cases t with
      | nil => exact absurd (Nat.lt_of_succ_lt_succ hi) (Nat.not_lt_zero i)
      | cons y u =>
          rw [List.getLast?_cons_cons, List.set_cons_succ,
            List.eraseIdx_cons_succ,
            List.dropLast_cons_of_ne_nil
              (show (y :: u).set i ((y :: u).getLast?.getD d) ≠ [] from by
                intro hnil
                have hlen := congrArg List.length hnil
                simp at hlen)]
          exact List.Perm.cons x (swap_dropLast_perm d (y :: u) i
            (Nat.lt_of_succ_lt_succ hi))

/-- C9 (confirmed).  Every aggregator event publishes the resulting
snapshot on the shared channel; a create appends, a delete removes the
first entry with the matching name (swap-with-last-and-truncate, hence
equal to erasing that entry up to permutation), and a clear empties both
lists. -/
theorem claim_C9 (cs : ClusterState) (ing : K8RouterIngress)
    (b : K8RouterBackend) :
    (∀ ev, (aggStep cs ev).2 = [(aggStep cs ev).1]) ∧
    (aggStep cs (.ingress ⟨ing, true⟩)).1 =
      { cs with Ingresses := cs.Ingresses ++ [ing] } ∧
    ((aggStep cs (.ingress ⟨ing, false⟩)).1.Backends = cs.Backends ∧
      (match cs.Ingresses.findIdx? (fun x => x.Name = ing.Name) with
      | none => (aggStep cs (.ingress ⟨ing, false⟩)).1.Ingresses = cs.Ingresses
      | some i => (aggStep cs (.ingress ⟨ing, false⟩)).1.Ingresses.Perm
          (cs.Ingresses.eraseIdx i))) ∧
    (aggStep cs (.backend ⟨b, true⟩)).1 =
      { cs with Backends := cs.Backends ++ [b] } ∧
    ((aggStep cs (.backend ⟨b, false⟩)).1.Ingresses = cs.Ingresses ∧
      (match cs.Backends.findIdx? (fun x => x.Name = b.Name) with
      | none => (aggStep cs (.backend ⟨b, false⟩)).1.Backends = cs.Backends
      | some i => (aggStep cs (.backend ⟨b, false⟩)).1.Backends.Perm
          (cs.Backends.eraseIdx i))) ∧
    (aggStep cs .clear).1 = { cs with Ingresses := [], Backends := [] } := by
  refine ⟨fun ev => by cases ev <;> rfl, rfl, ⟨?_, ?_⟩, rfl, ⟨?_, ?_⟩, rfl⟩
  · show (aggApplyIngress cs ⟨ing, false⟩).Backends = cs.Backends
    unfold aggApplyIngress
    rw [if_neg (by simp)]
    cases cs.Ingresses.findIdx? fun x => x.Name = ing.Name <;> rfl
  · show match cs.Ingresses.findIdx? (fun x => x.Name = ing.Name) with
      | none => (aggApplyIngress cs ⟨ing, false⟩).Ingresses = cs.Ingresses
      | some i => (aggApplyIngress cs ⟨ing, false⟩).Ingresses.Perm
          (cs.Ingresses.eraseIdx i)
    unfold aggApplyIngress
    rw [if_neg (by simp)]
    cases hf : cs.Ingresses.findIdx? fun x => x.Name = ing.Name with
    | none => rfl
    | some i =>
        exact swap_dropLast_perm _ cs.Ingresses i
          (List.findIdx?_eq_some_iff_findIdx_eq.mp hf).1
  · show (aggApplyBackend cs ⟨b, false⟩).Ingresses = cs.Ingresses
    unfold aggApplyBackend
    rw [if_neg (by simp)]
    cases cs.Backends.findIdx? fun x => x.Name = b.Name <;> rfl
  · show match cs.Backends.findIdx? (fun x => x.Name = b.Name) with
      | none => (aggApplyBackend cs ⟨b, false⟩).Backends = cs.Backends
      | some i => (aggApplyBackend cs ⟨b, false⟩).Backends.Perm
          (cs.Backends.eraseIdx i)
    unfold aggApplyBackend
    rw [if_neg (by simp)]
    cases hf : cs.Backends.findIdx? fun x => x.Name = b.Name with
    | none => rfl
    | some i =>
        exact swap_dropLast_perm _ cs.Backends i
          (List.findIdx?_eq_some_iff_findIdx_eq.mp hf).1

/-- C10 (confirmed).  A delete whose name matches no entry leaves both
lists unchanged, yet the (unchanged) snapshot is still published on the
shared channel. -/
theorem claim_C10 (cs : ClusterState) (ing : K8RouterIngress)
    (b : K8RouterBackend)
    (hni : ∀ x ∈ cs.Ingresses, x.Name ≠ ing.Name)
    (hnb : ∀ x ∈ cs.Backends, x.Name ≠ b.Name) :
    aggStep cs (.ingress ⟨ing, false⟩) = (cs, [cs]) ∧
    aggStep cs (.backend ⟨b, false⟩) = (cs, [cs]) := by
  have hfi : cs.Ingresses.findIdx? (fun x => x.Name = ing.Name) = none :=
    List.findIdx?_eq_none_iff.mpr fun x hx => by simpa using hni x hx
  have hfb : cs.Backends.findIdx? (fun x => x.Name = b.Name) = none :=
    List.findIdx?_eq_none_iff.mpr fun x hx => by simpa using hnb x hx
  constructor
  · show (aggApplyIngress cs ⟨ing, false⟩, [aggApplyIngress cs ⟨ing, false⟩]) = _
    unfold aggApplyIngress
    rw [if_neg (by simp), hfi]
  · show (aggApplyBackend cs ⟨b, false⟩, [aggApplyBackend cs ⟨b, false⟩]) = _
    unfold aggApplyBackend
    rw [if_neg (by simp), hfb]

/-- C10 witness: deleting a missing name publishes the unchanged
snapshot. -/
theorem claim_C10_witness :
    (∀ x ∈ (⟨"A", [⟨"i", ["h"]⟩], [⟨"b", 1⟩]⟩ : ClusterState).Ingresses,
      x.Name ≠ "missing") ∧
    (∀ x ∈ (⟨"A", [⟨"i", ["h"]⟩], [⟨"b", 1⟩]⟩ : ClusterState).Backends,
      x.Name ≠ "missing") ∧
    aggStep ⟨"A", [⟨"i", ["h"]⟩], [⟨"b", 1⟩]⟩
        (.ingress ⟨⟨"missing", []⟩, false⟩) =
      (⟨"A", [⟨"i", ["h"]⟩], [⟨"b", 1⟩]⟩,
        [⟨"A", [⟨"i", ["h"]⟩], [⟨"b", 1⟩]⟩]) :=
  ⟨by decide, by decide,
    (claim_C10 ⟨"A", [⟨"i", ["h"]⟩], [⟨"b", 1⟩]⟩ ⟨"missing", []⟩
      ⟨"missing", 0⟩ (by decide) (by decide)).1⟩

/-! ## Claim C2: the renderer event loop -/

theorem handleUpdates_numChanges (h : HandlerState) :
    ∀ events : List ClusterState,
    (events.foldl handleUpdate h).numChanges = h.numChanges + events.length := by
  intro events
  induction events generalizing h with
  | nil => simp
  | cons e t ih =>
      rw [List.foldl_cons, ih]
      show (handleUpdate h e).numChanges + t.length = _
      unfold handleUpdate
      simp [List.length_cons]
      omega

/-- C2 (amended).  The event loop raises the dirty counter on every
received snapshot without comparing it to the stored one, so the next tick
writes and reloads iff at least one snapshot arrived since the last dirty
tick; a tick with no received snapshots performs no write and no reload
and leaves the state unchanged. -/
theorem claim_C2_amended (h : HandlerState) (events : List ClusterState)
    (hclean : h.numChanges = 0) :
    ((handleTick (events.foldl handleUpdate h)).2 = !events.isEmpty) ∧
    (events = [] → handleTick (events.foldl handleUpdate h) = (h, false)) ∧
    (∀ st s, (handleUpdate st s).numChanges = st.numChanges + 1) := by
  refine ⟨?_, ?_, fun st s => rfl⟩
  · unfold handleTick
    rw [handleUpdates_numChanges, hclean]
    cases events with
    | nil => simp
    | cons e t => simp [List.length_cons]
  · rintro rfl
    unfold handleTick
    rw [if_neg (by simp [hclean])]
    exact rfl

/-- C2 counterexample: receiving a snapshot deep-equal to the stored one
still marks the state dirty, and the next tick writes and reloads. -/
theorem claim_C2_counterexample :
    (assocLookup (⟨[("A", ⟨"A", [], []⟩)], 0⟩ : HandlerState).clusterState "A" =
      some ⟨"A", [], []⟩) ∧
    (handleUpdate ⟨[("A", ⟨"A", [], []⟩)], 0⟩ ⟨"A", [], []⟩).numChanges = 1 ∧
    (handleTick (handleUpdate ⟨[("A", ⟨"A", [], []⟩)], 0⟩ ⟨"A", [], []⟩)).2 =
      true := by
  decide

/-- C2 witness: one received snapshot produces a write on the next tick;
no received snapshot produces none. -/
theorem claim_C2_witness :
    ((⟨[], 0⟩ : HandlerState).numChanges = 0) ∧
    ((handleTick ([(⟨"A", [], []⟩ : ClusterState)].foldl handleUpdate
      ⟨[], 0⟩)).2 = !([(⟨"A", [], []⟩ : ClusterState)].isEmpty)) :=
  ⟨rfl, (claim_C2_amended ⟨[], 0⟩ [⟨"A", [], []⟩] rfl).1⟩

/-! ## Claim C4: Modified ingress events -/

/-- C4: the Go switch in `handleIngressEvent` has an empty
`case watch.Modified:` body (no fallthrough), so a Modified ingress event
is dropped: nothing is compared, no change event is emitted and the
remembered map is untouched.  The comparison-and-emit code sits
unreachably inside the `watch.Added` case. -/
theorem claim_C4_modified_dropped (known : List (String × K8RouterIngress))
    (ing : K8RouterIngress) :
    handleIngressEvent known ing WatchAction.Modified = (known, []) := rfl

/-! ## Claim C6: determinism across iteration orders -/

theorem clustersForHost_perm {css₁ css₂ : List ClusterState}
    (hperm : css₁.Perm css₂) (host : String) :
    (clustersForHost css₁ host).Perm (clustersForHost css₂ host) :=
  (hperm.map _).flatten

theorem allHosts_perm {css₁ css₂ : List ClusterState}
    (hperm : css₁.Perm css₂) : (allHosts css₁).Perm (allHosts css₂) :=
  (hperm.map _).flatten

theorem combinationKey_eq {css₁ css₂ : List ClusterState}
    (hperm : css₁.Perm css₂) (host : String) :
    combinationKey css₁ host = combinationKey css₂ host := by
  unfold combinationKey
  rw [sortStrings_eq_of_perm (clustersForHost_perm hperm host)]

theorem hostOccurs_eq {css₁ css₂ : List ClusterState}
    (hperm : css₁.Perm css₂) (h : String) :
    hostOccurs css₁ h = hostOccurs css₂ h := by
  unfold hostOccurs
  apply Bool.eq_iff_iff.mpr
  simp only [List.any_eq_true]
  exact ⟨fun ⟨cs, hcs, hp⟩ => ⟨cs, hperm.mem_iff.mp hcs, hp⟩,
    fun ⟨cs, hcs, hp⟩ => ⟨cs, hperm.mem_iff.mpr hcs, hp⟩⟩

theorem lookupCluster_eq {css₁ css₂ : List ClusterState}
    (hperm : css₁.Perm css₂) (hn : (css₁.map (·.Name)).Nodup) (n : String) :
    lookupCluster css₁ n = lookupCluster css₂ n := by
  unfold lookupCluster
  cases hf₁ : css₁.find? fun cs => cs.Name = n with
  | none =>
      have h2 : css₂.find? (fun cs => cs.Name = n) = none := by
        rw [List.find?_eq_none] at hf₁ ⊢
        exact fun x hx => hf₁ x (hperm.mem_iff.mpr hx)
      rw [h2]
  | some cs =>
      have hcs₁ := List.mem_of_find?_eq_some hf₁
      have hname : cs.Name = n := by simpa using List.find?_some hf₁
      have hs₂ : (css₂.find? fun c => c.Name = n).isSome :=
        List.find?_isSome.mpr ⟨cs, hperm.mem_iff.mp hcs₁, by simp [hname]⟩
      cases hf₂ : css₂.find? fun c => c.Name = n with
      | none => rw [hf₂] at hs₂; cases hs₂
      | some cs' =>
          have hcs'₁ : cs' ∈ css₁ :=
            hperm.mem_iff.mpr (List.mem_of_find?_eq_some hf₂)
          have hname' : cs'.Name = n := by simpa using List.find?_some hf₂
          have heq : cs = cs' := List.inj_on_of_nodup_map hn hcs₁ hcs'₁
            (by rw [hname, hname'])
          rw [heq]

theorem endpointsForClusters_eq {css₁ css₂ : List ClusterState}
    (hperm : css₁.Perm css₂) (hn : (css₁.map (·.Name)).Nodup)
    (clusters : List String) :
    endpointsForClusters css₁ clusters = endpointsForClusters css₂ clusters := by
  unfold endpointsForClusters
  congr 1
  apply List.map_congr_left
  intro n _
  rw [lookupCluster_eq hperm hn n]

theorem step2_fold_bcl_none (css : List ClusterState) :
    ∀ (ho : List String) (acc : RoutingTables) (k : String),
    (∀ h ∈ ho, combinationKey css h ≠ k) →
    assocLookup acc.backendCombinationList k = none →
    assocLookup (ho.foldl (step2Visit css) acc).backendCombinationList k = none
  | [], _, _, _, hnone => hnone
  | a :: t, acc, k, hkeys, hnone => by
      rw [List.foldl_cons]
      apply step2_fold_bcl_none css t
      · exact fun h hh => hkeys h (List.mem_cons_of_mem a hh)
      · unfold step2Visit
        dsimp only
        split
        · exact hnone
        · rw [assocLookup_append, hnone]
          dsimp only
          rw [assocLookup_cons,
            if_neg (show ¬(joinDash (sortStrings (clustersForHost css a)) = k)
              from hkeys a (List.mem_cons_self a t)),
            assocLookup_nil]

theorem wildcardFold_used (certName suffix : String) :
    ∀ (scan : List String) (u : List String) (m : List (String × String)),
    (scan.foldl (wildcardVisit certName suffix) (u, m)).1 =
      u ++ scan.filter fun h => goHasSuffix h suffix
  | [], u, m => by simp
  | a :: t, u, m => by
      rw [List.foldl_cons, List.filter_cons]
      by_cases ha : goHasSuffix a suffix = true
      · rw [show wildcardVisit certName suffix (u, m) a =
            (u ++ [a], assocSet m a certName) from by
          unfold wildcardVisit; rw [if_pos ha]]
        rw [wildcardFold_used certName suffix t (u ++ [a]) _, if_pos ha]
        simp
      · rw [show wildcardVisit certName suffix (u, m) a = (u, m) from by
          unfold wildcardVisit; rw [if_neg ha]]
        rw [wildcardFold_used certName suffix t u m, if_neg ha]

theorem sniRel_assocSet {m₁ m₂ : List (String × SniDetail)}
    (h : ∀ n, sniRel (assocLookup m₁ n) (assocLookup m₂ n))
    (k : String) {d₁ d₂ : SniDetail} (hd : SniDetailRel d₁ d₂) :
    ∀ n, sniRel (assocLookup (assocSet m₁ k d₁) n)
      (assocLookup (assocSet m₂ k d₂) n) := by
  intro n
  by_cases hn : n = k
  · subst hn
    rw [assocLookup_assocSet_self, assocLookup_assocSet_self]
    exact hd
  · rw [assocLookup_assocSet_other _ _ _ _ hn,
      assocLookup_assocSet_other _ _ _ _ hn]
    exact h n

theorem processPattern_rel (table₁ table₂ : List (String × String))
    (scans₁ scans₂ : Nat → List String) (certName : String)
    (hkeys : ∀ p, (assocLookup table₁ p).isSome = (assocLookup table₂ p).isSome)
    (hsc : ∀ i, (scans₁ i).Perm (scans₂ i))
    (a₁ a₂ : PatternAcc) (pattern : String)
    (hu : a₁.used.Perm a₂.used) (hw : a₁.isWildcard = a₂.isWildcard)
    (hi : a₁.scanIdx = a₂.scanIdx)
    (hm : ∀ h, assocLookup a₁.hostToCert h = assocLookup a₂.hostToCert h) :
    (processPattern table₁ scans₁ certName a₁ pattern).used.Perm
      (processPattern table₂ scans₂ certName a₂ pattern).used ∧
    (processPattern table₁ scans₁ certName a₁ pattern).isWildcard =
      (processPattern table₂ scans₂ certName a₂ pattern).isWildcard ∧
    (processPattern table₁ scans₁ certName a₁ pattern).scanIdx =
      (processPattern table₂ scans₂ certName a₂ pattern).scanIdx ∧
    (∀ h, assocLookup (processPattern table₁ scans₁ certName a₁ pattern).hostToCert h =
      assocLookup (processPattern table₂ scans₂ certName a₂ pattern).hostToCert h) := by
  unfold processPattern
  by_cases hstar : hasStar pattern = true
  · rw [if_pos hstar, if_pos hstar]
    dsimp only
    have hperm : (scans₁ a₁.scanIdx).Perm (scans₂ a₂.scanIdx) := by
      rw [hi]; exact hsc a₂.scanIdx
    refine ⟨?_, rfl, by rw [hi], ?_⟩
    · rw [show (List.foldl (wildcardVisit certName (trimStars pattern))
          (a₁.used, a₁.hostToCert) (scans₁ a₁.scanIdx)).1 =
          a₁.used ++ (scans₁ a₁.scanIdx).filter
            (fun h => goHasSuffix h (trimStars pattern)) from
        wildcardFold_used certName (trimStars pattern) (scans₁ a₁.scanIdx) _ _]
      rw [show (List.foldl (wildcardVisit certName (trimStars pattern))
          (a₂.used, a₂.hostToCert) (scans₂ a₂.scanIdx)).1 =
          a₂.used ++ (scans₂ a₂.scanIdx).filter
            (fun h => goHasSuffix h (trimStars pattern)) from
        wildcardFold_used certName (trimStars pattern) (scans₂ a₂.scanIdx) _ _]
      exact hu.append (hperm.filter _)
    · intro h
      rw [show (List.foldl (wildcardVisit certName (trimStars pattern))
          (a₁.used, a₁.hostToCert) (scans₁ a₁.scanIdx)).2 =
          (List.foldl (wildcardVisit certName (trimStars pattern))
          ((a₁.used, a₁.hostToCert).1, (a₁.used, a₁.hostToCert).2)
          (scans₁ a₁.scanIdx)).2 from rfl,
        wildcardFold_htc_lookup certName (trimStars pattern) (scans₁ a₁.scanIdx)
          a₁.used a₁.hostToCert h,
        wildcardFold_htc_lookup certName (trimStars pattern) (scans₂ a₂.scanIdx)
          a₂.used a₂.hostToCert h]
      by_cases hcond : h ∈ scans₁ a₁.scanIdx ∧ goHasSuffix h (trimStars pattern) = true
      · rw [if_pos hcond, if_pos ⟨hperm.mem_iff.mp hcond.1, hcond.2⟩]
      · rw [if_neg hcond, if_neg fun hc => hcond ⟨hperm.mem_iff.mpr hc.1, hc.2⟩]
        exact hm h
  · rw [if_neg hstar, if_neg hstar]
    by_cases hhit : (assocLookup table₁ pattern).isSome
    · rw [if_pos hhit, if_pos (by rw [← hkeys pattern]; exact hhit)]
      dsimp only
      refine ⟨hu.append (List.Perm.refl [pattern]), hw, hi, ?_⟩
      intro h
      by_cases hph : h = pattern
      · subst hph
        rw [assocLookup_assocSet_self, assocLookup_assocSet_self]
      · rw [assocLookup_assocSet_other _ _ _ _ hph,
          assocLookup_assocSet_other _ _ _ _ hph]
        exact hm h
    · rw [if_neg hhit, if_neg (by rw [← hkeys pattern]; exact hhit)]
      exact ⟨hu, hw, hi, hm⟩

theorem patternsFold_rel (table₁ table₂ : List (String × String))
    (scans₁ scans₂ : Nat → List String) (certName : String)
    (hkeys : ∀ p, (assocLookup table₁ p).isSome = (assocLookup table₂ p).isSome)
    (hsc : ∀ i, (scans₁ i).Perm (scans₂ i)) :
    ∀ (ds : List String) (a₁ a₂ : PatternAcc),
    a₁.used.Perm a₂.used → a₁.isWildcard = a₂.isWildcard →
    a₁.scanIdx = a₂.scanIdx →
    (∀ h, assocLookup a₁.hostToCert h = assocLookup a₂.hostToCert h) →
    (ds.foldl (processPattern table₁ scans₁ certName) a₁).used.Perm
      (ds.foldl (processPattern table₂ scans₂ certName) a₂).used ∧
    (ds.foldl (processPattern table₁ scans₁ certName) a₁).isWildcard =
      (ds.foldl (processPattern table₂ scans₂ certName) a₂).isWildcard ∧
    (ds.foldl (processPattern table₁ scans₁ certName) a₁).scanIdx =
      (ds.foldl (processPattern table₂ scans₂ certName) a₂).scanIdx ∧
    (∀ h, assocLookup (ds.foldl (processPattern table₁ scans₁ certName) a₁).hostToCert h =
      assocLookup (ds.foldl (processPattern table₂ scans₂ certName) a₂).hostToCert h)
  | [], a₁, a₂, hu, hw, hi, hm => ⟨hu, hw, hi, hm⟩
  | p :: t, a₁, a₂, hu, hw, hi, hm => by
      rw [List.foldl_cons, List.foldl_cons]
      obtain ⟨hu', hw', hi', hm'⟩ := processPattern_rel table₁ table₂ scans₁
        scans₂ certName hkeys hsc a₁ a₂ p hu hw hi hm
      exact patternsFold_rel table₁ table₂ scans₁ scans₂ certName hkeys hsc t
        _ _ hu' hw' hi' hm'

theorem processCert_rel (table₁ table₂ : List (String × String))
    (scans₁ scans₂ : Nat → List String)
    (hkeys : ∀ p, (assocLookup table₁ p).isSome = (assocLookup table₂ p).isSome)
    (hsc : ∀ i, (scans₁ i).Perm (scans₂ i))
    (a₁ a₂ : CertAcc) (cert : CertificateInternal)
    (hport : a₁.port = a₂.port) (hidx : a₁.scanIdx = a₂.scanIdx)
    (hdef : a₁.defaultWildcardCert = a₂.defaultWildcardCert)
    (hhtc : ∀ h, assocLookup a₁.hostToCert h = assocLookup a₂.hostToCert h)
    (hsni : ∀ n, sniRel (assocLookup a₁.sniList n) (assocLookup a₂.sniList n)) :
    (processCert table₁ scans₁ a₁ cert).port =
      (processCert table₂ scans₂ a₂ cert).port ∧
    (processCert table₁ scans₁ a₁ cert).scanIdx =
      (processCert table₂ scans₂ a₂ cert).scanIdx ∧
    (processCert table₁ scans₁ a₁ cert).defaultWildcardCert =
      (processCert table₂ scans₂ a₂ cert).defaultWildcardCert ∧
    (∀ h, assocLookup (processCert table₁ scans₁ a₁ cert).hostToCert h =
      assocLookup (processCert table₂ scans₂ a₂ cert).hostToCert h) ∧
    (∀ n, sniRel (assocLookup (processCert table₁ scans₁ a₁ cert).sniList n)
      (assocLookup (processCert table₂ scans₂ a₂ cert).sniList n)) := by
  unfold processCert
  set p₁ := cert.Domains.foldl (processPattern table₁ scans₁ cert.Name)
    ⟨[], false, a₁.hostToCert, a₁.scanIdx⟩ with hp₁
  set p₂ := cert.Domains.foldl (processPattern table₂ scans₂ cert.Name)
    ⟨[], false, a₂.hostToCert, a₂.scanIdx⟩ with hp₂
  obtain ⟨hu, hw, hi, hm⟩ := patternsFold_rel table₁ table₂ scans₁ scans₂
    cert.Name hkeys hsc cert.Domains
    ⟨[], false, a₁.hostToCert, a₁.scanIdx⟩
    ⟨[], false, a₂.hostToCert, a₂.scanIdx⟩
    (List.Perm.refl []) rfl hidx hhtc
  rw [← hp₁, ← hp₂] at hu hw hi hm
  have hempty : p₁.used.isEmpty = p₂.used.isEmpty := by
    apply Bool.eq_iff_iff.mpr
    rw [List.isEmpty_iff, List.isEmpty_iff]
    constructor
    · intro h1
      exact (h1 ▸ hu).symm.eq_nil
    · intro h2
      exact (h2 ▸ hu).eq_nil
  dsimp only
  rw [hempty, hw]
  split
  · exact ⟨hport, hi, hdef, hm, hsni⟩
  · refine ⟨by rw [hport], hi, by rw [hdef], hm, ?_⟩
    apply sniRel_assocSet hsni
    exact ⟨hu, rfl, hport, rfl⟩

theorem step3Fold_rel (table₁ table₂ : List (String × String))
    (scans₁ scans₂ : Nat → List String)
    (hkeys : ∀ p, (assocLookup table₁ p).isSome = (assocLookup table₂ p).isSome)
    (hsc : ∀ i, (scans₁ i).Perm (scans₂ i)) :
    ∀ (certs : List CertificateInternal) (a₁ a₂ : CertAcc),
    a₁.port = a₂.port → a₁.scanIdx = a₂.scanIdx →
    a₁.defaultWildcardCert = a₂.defaultWildcardCert →
    (∀ h, assocLookup a₁.hostToCert h = assocLookup a₂.hostToCert h) →
    (∀ n, sniRel (assocLookup a₁.sniList n) (assocLookup a₂.sniList n)) →
    (certs.foldl (processCert table₁ scans₁) a₁).port =
      (certs.foldl (processCert table₂ scans₂) a₂).port ∧
    (certs.foldl (processCert table₁ scans₁) a₁).defaultWildcardCert =
      (certs.foldl (processCert table₂ scans₂) a₂).defaultWildcardCert ∧
    (∀ h, assocLookup (certs.foldl (processCert table₁ scans₁) a₁).hostToCert h =
      assocLookup (certs.foldl (processCert table₂ scans₂) a₂).hostToCert h) ∧
    (∀ n, sniRel (assocLookup (certs.foldl (processCert table₁ scans₁) a₁).sniList n)
      (assocLookup (certs.foldl (processCert table₂ scans₂) a₂).sniList n))
  | [], a₁, a₂, hport, _, hdef, hhtc, hsni => ⟨hport, hdef, hhtc, hsni⟩
  | c :: t, a₁, a₂, hport, hidx, hdef, hhtc, hsni => by
      rw [List.foldl_cons, List.foldl_cons]
      obtain ⟨hp', hi', hd', hm', hs'⟩ := processCert_rel table₁ table₂ scans₁
        scans₂ hkeys hsc a₁ a₂ c hport hidx hdef hhtc hsni
      exact step3Fold_rel table₁ table₂ scans₁ scans₂ hkeys hsc t _ _
        hp' hi' hd' hm' hs'

/-- C6 (amended).  Provided cluster names are distinct, nonempty and
dash-free, two derivation runs over permuted stored snapshots, permuted
host iteration orders and arbitrary wildcard-scan orders agree on the
host-to-backend table, the backend-combination table, the default
wildcard certificate and the host-to-certificate table, and their SNI
entries agree up to the order of each filtered host list.  Byte-identical
output fails only in that last list order (see the counterexample). -/
theorem claim_C6_amended (css₁ css₂ : List ClusterState) (ho₁ ho₂ : List String)
    (scans₁ scans₂ : Nat → List String) (certs : List CertificateInternal)
    (hperm : css₁.Perm css₂) (hn : (css₁.map (·.Name)).Nodup)
    (hgood : ∀ cs ∈ css₁, goodName cs.Name)
    (hho₁ : ho₁.Perm (allHosts css₁).dedup)
    (hho₂ : ho₂.Perm (allHosts css₂).dedup)
    (hs₁ : ∀ i, (scans₁ i).Perm ho₁) (hs₂ : ∀ i, (scans₂ i).Perm ho₂) :
    (∀ h, assocLookup (rebuildConfig css₁ ho₁ certs scans₁).1.HostToBackend h =
      assocLookup (rebuildConfig css₂ ho₂ certs scans₂).1.HostToBackend h) ∧
    (∀ k, assocLookup
        (rebuildConfig css₁ ho₁ certs scans₁).1.BackendCombinationList k =
      assocLookup (rebuildConfig css₂ ho₂ certs scans₂).1.BackendCombinationList k) ∧
    (rebuildConfig css₁ ho₁ certs scans₁).1.DefaultWildcardCert =
      (rebuildConfig css₂ ho₂ certs scans₂).1.DefaultWildcardCert ∧
    (∀ h, assocLookup (rebuildConfig css₁ ho₁ certs scans₁).2 h =
      assocLookup (rebuildConfig css₂ ho₂ certs scans₂).2 h) ∧
    (∀ n, sniRel (assocLookup (rebuildConfig css₁ ho₁ certs scans₁).1.SniList n)
      (assocLookup (rebuildConfig css₂ ho₂ certs scans₂).1.SniList n)) := by
  have hoPerm : ho₁.Perm ho₂ :=
    hho₁.trans ((allHosts_perm hperm).dedup.trans hho₂.symm)
  have hkey : ∀ h, combinationKey css₁ h = combinationKey css₂ h :=
    combinationKey_eq hperm
  have htbeq : ∀ h, assocLookup (step2 css₁ ho₁).hostToBackend h =
      assocLookup (step2 css₂ ho₂).hostToBackend h := by
    intro h
    rw [step2_htb_lookup, step2_htb_lookup]
    by_cases hmem : h ∈ ho₁
    · rw [if_pos hmem, if_pos (hoPerm.mem_iff.mp hmem), hkey h]
    · rw [if_neg hmem, if_neg fun hc => hmem (hoPerm.mem_iff.mpr hc)]
  have hkeysSome : ∀ p, (assocLookup (step2 css₁ ho₁).hostToBackend p).isSome =
      (assocLookup (step2 css₂ ho₂).hostToBackend p).isSome := by
    intro p
    rw [htbeq p]
  have hsc : ∀ i, (scans₁ i).Perm (scans₂ i) := fun i =>
    (hs₁ i).trans (hoPerm.trans (hs₂ i).symm)
  obtain ⟨hp3, hd3, hm3, hs3⟩ := step3Fold_rel
    (step2 css₁ ho₁).hostToBackend (step2 css₂ ho₂).hostToBackend
    scans₁ scans₂ hkeysSome hsc certs ⟨[], 12345, [], "", 0⟩
    ⟨[], 12345, [], "", 0⟩ rfl rfl rfl (fun _ => rfl) (fun _ => trivial)
  refine ⟨htbeq, ?_, hd3, hm3, hs3⟩
  intro k
  by_cases hex : ∃ h, h ∈ ho₁ ∧ combinationKey css₁ h = k
  · obtain ⟨h, hmem, hk⟩ := hex
    have hocc₁ : ∀ x ∈ ho₁, hostOccurs css₁ x = true :=
      fun x hx => (mem_hostOrder_iff hho₁ x).mp hx
    have hocc₂ : ∀ x ∈ ho₂, hostOccurs css₂ x = true :=
      fun x hx => (mem_hostOrder_iff hho₂ x).mp hx
    have hgood₂ : ∀ cs ∈ css₂, goodName cs.Name :=
      fun cs hcs => hgood cs (hperm.mem_iff.mpr hcs)
    have h₁ := step2_bcl_lookup_of_good css₁ ho₁ h hgood hocc₁ hmem
    have h₂ := step2_bcl_lookup_of_good css₂ ho₂ h hgood₂ hocc₂
      (hoPerm.mem_iff.mp hmem)
    show assocLookup (step2 css₁ ho₁).backendCombinationList k =
      assocLookup (step2 css₂ ho₂).backendCombinationList k
    rw [← hk, h₁, hkey h, h₂,
      sortStrings_eq_of_perm (clustersForHost_perm hperm h),
      endpointsForClusters_eq hperm hn]
  · push_neg at hex
    have h₁ := step2_fold_bcl_none css₁ ho₁ ⟨[], []⟩ k
      (fun h hh => hex h hh) rfl
    have h₂ := step2_fold_bcl_none css₂ ho₂ ⟨[], []⟩ k
      (fun h hh => (hkey h) ▸ hex h (hoPerm.mem_iff.mpr hh)) rfl
    show assocLookup (step2 css₁ ho₁).backendCombinationList k =
      assocLookup (step2 css₂ ho₂).backendCombinationList k
    rw [show (step2 css₁ ho₁) = ho₁.foldl (step2Visit css₁) ⟨[], []⟩ from rfl,
      show (step2 css₂ ho₂) = ho₂.foldl (step2Visit css₂) ⟨[], []⟩ from rfl,
      h₁, h₂]

/-- C6 counterexample: with one wildcard certificate matching two hosts,
two runs over the same snapshots and certificates but different map
iteration orders for the wildcard scan produce different derived tables
(the SNI entry's host list order differs), so the output is not
byte-identical. -/
theorem claim_C6_counterexample :
    rebuildConfig [⟨"A", [⟨"i", ["a.org", "b.org"]⟩], [⟨"p", 1⟩]⟩]
        ["a.org", "b.org"] [⟨"w", "/w", ["*.org"]⟩]
        (fun _ => ["a.org", "b.org"]) ≠
      rebuildConfig [⟨"A", [⟨"i", ["a.org", "b.org"]⟩], [⟨"p", 1⟩]⟩]
        ["a.org", "b.org"] [⟨"w", "/w", ["*.org"]⟩]
        (fun _ => ["b.org", "a.org"]) := by
  decide

/-- C6 witness: the amended determinism claim at a concrete input. -/
theorem claim_C6_witness :
    ([(⟨"A", [⟨"i", ["h"]⟩], [⟨"b", 1⟩]⟩ : ClusterState)].Perm
      [(⟨"A", [⟨"i", ["h"]⟩], [⟨"b", 1⟩]⟩ : ClusterState)]) ∧
    (([(⟨"A", [⟨"i", ["h"]⟩], [⟨"b", 1⟩]⟩ : ClusterState)].map (·.Name)).Nodup) ∧
    (∀ cs ∈ [(⟨"A", [⟨"i", ["h"]⟩], [⟨"b", 1⟩]⟩ : ClusterState)], goodName cs.Name) ∧
    (["h"].Perm (allHosts [(⟨"A", [⟨"i", ["h"]⟩], [⟨"b", 1⟩]⟩ : ClusterState)]).dedup) ∧
    (∀ h, assocLookup (rebuildConfig
        [(⟨"A", [⟨"i", ["h"]⟩], [⟨"b", 1⟩]⟩ : ClusterState)] ["h"]
        [⟨"c", "/p", ["h"]⟩] fun _ => ["h"]).1.HostToBackend h =
      assocLookup (rebuildConfig
        [(⟨"A", [⟨"i", ["h"]⟩], [⟨"b", 1⟩]⟩ : ClusterState)] ["h"]
        [⟨"c", "/p", ["h"]⟩] fun _ => ["h"]).1.HostToBackend h) :=
  ⟨by decide, by decide, by decide, by decide,
    (claim_C6_amended [(⟨"A", [⟨"i", ["h"]⟩], [⟨"b", 1⟩]⟩ : ClusterState)]
      [(⟨"A", [⟨"i", ["h"]⟩], [⟨"b", 1⟩]⟩ : ClusterState)] ["h"] ["h"]
      (fun _ => ["h"]) (fun _ => ["h"]) [⟨"c", "/p", ["h"]⟩]
      (by decide) (by decide) (by decide) (by decide) (by decide)
      (fun _ => List.Perm.refl ["h"]) (fun _ => List.Perm.refl ["h"])).1⟩
